import Mathlib

/-!
Shallow embedding of the DINUS research recommendation engine
(src/research_reco/bm25.py, recommend.py, supervisor_profiles.py,
query_expansion.py) and proofs about it.

Conventions of the embedding:
* Python floats are modelled as exact rationals (`ℚ`); the literal guard
  constant `1e-9` that the source adds to denominators is kept as the exact
  rational `1/10^9`.
* `math.log` is not rational-valued, so every definition that needs it takes
  an abstract function `logf : ℚ → ℚ` standing for the real logarithm applied
  to the (rational) argument the source builds.  All theorems quantify over
  `logf`, so nothing depends on its actual values.
* Python dicts are modelled as association lists in insertion order:
  an update of an existing key rewrites the value in place, a new key is
  appended at the end, exactly like CPython dict semantics.
* Python `list.sort(key=..., reverse=True)` / `sorted(..., reverse=True)` is a
  stable descending sort by key; it is modelled with `List.insertionSort`
  using the non-strict relation below, which is stable in the same way.
-/

/-- The literal constant `1e-9` used by the source as a numerical guard. -/
def eps : ℚ := 1 / 1000000000

/-- Display metadata of one document (the fields of the per-document meta dict
that the engine reads).  A missing dict key and a `None` value are both
modelled as `none`. -/
structure Meta where
  doc_id : Option String
  judul : Option String
  keyword : Option String
  abstrak : Option String
  tanggal : Option String
  url : Option String
  deriving DecidableEq, Repr

/-- A meta dict with no usable fields (used when `include_meta` is false). -/
def emptyMeta : Meta := Meta.mk none none none none none none

/-- `BM25Index` of bm25.py: dicts become association lists in insertion
order. -/
structure BM25Index where
  k1 : ℚ
  b : ℚ
  vocab_df : List (String × Nat)
  idf : List (String × ℚ)
  doc_len : List Nat
  avgdl : ℚ
  postings : List (String × List (Nat × Nat))
  docs_meta : List Meta
  deriving DecidableEq, Repr

/-- First-match association-list lookup: Python `d.get(k)` / `k in d`. -/
def alookup {κ ν : Type} [DecidableEq κ] (k : κ) : List (κ × ν) → Option ν
  | [] => none
  | p :: rest => if p.1 = k then some p.2 else alookup k rest

/-- Python `d.get(k, default)`. -/
def aget {κ ν : Type} [DecidableEq κ] (k : κ) (d : ν) (m : List (κ × ν)) : ν :=
  (alookup k m).getD d

/-- Python `d[k] = v`: rewrite an existing key in place, else append. -/
def dictSet {κ ν : Type} [DecidableEq κ] (k : κ) (v : ν) : List (κ × ν) → List (κ × ν)
  | [] => [(k, v)]
  | p :: rest => if p.1 = k then (k, v) :: rest else p :: dictSet k v rest

/-- Insertion-order deduplication (the key order of a Python dict / the
iteration-stable part of a Python set built by insertion). -/
def dedupFirst {α : Type} [DecidableEq α] (l : List α) : List α :=
  l.foldl (fun acc t => if t ∈ acc then acc else acc ++ [t]) []

/-- ASCII lowercasing of one character (Python `str.lower` restricted to the
ASCII range the corpus uses). -/
def lowerChar (c : Char) : Char :=
  if 65 <= c.toNat ∧ c.toNat <= 90 then Char.ofNat (c.toNat + 32) else c

/-- Python `str.lower()` (ASCII model, character map). -/
def lowerStr (s : String) : String := String.mk (s.data.map lowerChar)

/-- The whitespace class of Python `str.strip()` / `str.split()`. -/
def isSpaceChar (c : Char) : Bool :=
  c.toNat = 32 ∨ c.toNat = 9 ∨ c.toNat = 10 ∨ c.toNat = 13 ∨ c.toNat = 11 ∨ c.toNat = 12

/-- Python `str.strip()` (default whitespace, both ends). -/
def trimStr (s : String) : String :=
  String.mk (((s.data.dropWhile isSpaceChar).reverse.dropWhile isSpaceChar).reverse)

/-- ASCII decimal digit test (Python `str.isdigit` on this ASCII corpus). -/
def isDigitChar (c : Char) : Bool := 48 <= c.toNat ∧ c.toNat <= 57

/-- A character of the `_WORD_RE` class `[a-zA-Z0-9_]` of recommend.py. -/
def isWordChar (c : Char) : Bool :=
  (97 <= c.toNat ∧ c.toNat <= 122) ∨ (65 <= c.toNat ∧ c.toNat <= 90) ∨
    (48 <= c.toNat ∧ c.toNat <= 57) ∨ c.toNat = 95

/-- Maximal runs of characters satisfying `keep` (`findall` of a character
class, or `str.split()` for the non-whitespace class), with `cur` the
reversed current run. -/
def charRuns (keep : Char → Bool) : List Char → List Char → List String
  | [], cur => if cur = [] then [] else [String.mk cur.reverse]
  | c :: rest, cur =>
    if keep c then charRuns keep rest (c :: cur)
    else if cur = [] then charRuns keep rest []
    else String.mk cur.reverse :: charRuns keep rest []

/-- Keys of the `q_terms` dict both scorers build: the distinct non-empty
query tokens in first-occurrence order (`for t in query_tokens: if not t:
continue; q_terms[t] += 1`). -/
def distinctTokens (query_tokens : List String) : List String :=
  dedupFirst (query_tokens.filter (fun t => ¬ t = ""))

/-- The score contribution of one postings entry `p = (doc_idx, tf)`:
`idf * (tf * (k1 + 1) / (denom + 1e-9))` with
`denom = tf + k1 * (1 - b + b * (dl / (avgdl + 1e-9)))`, shared verbatim by
`get_scores` and `bm25_search` in the source. -/
def contribOf (k1 b avgdl : ℚ) (doc_len : List Nat) (idfv : ℚ) (p : Nat × Nat) : ℚ :=
  let dl : ℚ := (doc_len.getD p.1 0 : Nat)
  let denom : ℚ := (p.2 : ℚ) + k1 * (1 - b + b * (dl / (avgdl + eps)))
  idfv * ((p.2 : ℚ) * (k1 + 1) / (denom + eps))

/-- One postings entry applied to the dense score table:
`scores[doc_idx] += idf * (...)`.  Out-of-range `doc_idx` would raise in
Python; `List.set` / `getD` make the model total, and the well-formedness
predicate below rules the case out. -/
def termPostingsStep (k1 b avgdl : ℚ) (doc_len : List Nat) (idfv : ℚ)
    (scores : List ℚ) (p : Nat × Nat) : List ℚ :=
  scores.set p.1 (scores.getD p.1 0 + contribOf k1 b avgdl doc_len idfv p)

/-- One query term applied to the dense score table (`postings.get(term)`,
the `if not plist: continue` guard, then the postings walk). -/
def denseTermStep (idx : BM25Index) (scores : List ℚ) (term : String) : List ℚ :=
  match alookup term idx.postings with
  | none => scores
  | some plist =>
    if plist = [] then scores
    else
      plist.foldl (termPostingsStep idx.k1 idx.b idx.avgdl idx.doc_len (aget term 0 idx.idf))
        scores

/-- `BM25Index.get_scores`: BM25 score for every document (dense). -/
def get_scores (idx : BM25Index) (query_tokens : List String) : List ℚ :=
  let N := idx.docs_meta.length
  if N = 0 ∨ query_tokens = [] then List.replicate N 0
  else (distinctTokens query_tokens).foldl (denseTermStep idx) (List.replicate N 0)

/-- Per-document term-frequency dict of build_bm25_index (empty tokens
skipped). -/
def tfCounts (toks : List String) : List (String × Nat) :=
  toks.foldl (fun tf t => if t = "" then tf else dictSet t (aget t 0 tf + 1) tf) []

/-- The document loop of `build_bm25_index`: for document `i` with tf dict
`tf`, do `vocab_df[t] += 1` and `postings.setdefault(t, []).append((i, f))`
for every `(t, f)` in `tf.items()`. -/
def buildStep (st : List (String × Nat) × List (String × List (Nat × Nat)))
    (itoks : Nat × List String) :
    List (String × Nat) × List (String × List (Nat × Nat)) :=
  (tfCounts itoks.2).foldl (fun st2 tfp =>
    (dictSet tfp.1 (aget tfp.1 0 st2.1 + 1) st2.1,
     dictSet tfp.1 (aget tfp.1 [] st2.2 ++ [(itoks.1, tfp.2)]) st2.2)) st

/-- The idf table of `build_bm25_index`:
`idf[t] = log(1 + (N - df + 0.5) / (df + 0.5)) if N else 0.0`. -/
def buildIdf (logf : ℚ → ℚ) (N : Nat) (vocab_df : List (String × Nat)) :
    List (String × ℚ) :=
  vocab_df.foldl (fun m p =>
    dictSet p.1
      (if N ≠ 0 then logf (1 + ((N : ℚ) - (p.2 : ℚ) + 1/2) / ((p.2 : ℚ) + 1/2)) else 0) m) []

/-- `build_bm25_index`.  The length check of the source
(`raise ValueError(...)`) becomes an `Except.error`; it fires after the
statistics are computed but before any index value is produced, exactly as in
the source.  `logf` abstracts `math.log`. -/
def build_bm25_index (logf : ℚ → ℚ) (docs_tokens : List (List String))
    (docs_meta : List Meta) (k1 b : ℚ) : Except String BM25Index :=
  let N := docs_tokens.length
  let doc_len := docs_tokens.map List.length
  let avgdl : ℚ := if N ≠ 0 then ((doc_len.foldl (fun a x => a + x) 0 : Nat) : ℚ) / (N : ℚ) else 0
  let dfpost := (docs_tokens.enum).foldl buildStep ([], [])
  let idf := buildIdf logf N dfpost.1
  if docs_meta.length ≠ N then
    Except.error "docs_meta length must match docs_tokens length"
  else
    Except.ok (BM25Index.mk k1 b dfpost.1 idf doc_len avgdl dfpost.2 docs_meta)

/-- One result row of `bm25_search`: the copied meta dict plus the always
attached `doc_idx`, `score` and (possibly synthesized) `doc_id`. -/
structure Hit where
  meta : Meta
  doc_idx : Nat
  score : ℚ
  doc_id : String
  deriving DecidableEq, Repr

/-- Python truthiness/blank test of the `doc_id` meta field:
missing, `None`, or all-whitespace. -/
def isBlankId : Option String → Bool
  | none => true
  | some s => trimStr s = ""

/-- One postings entry applied to the sparse score dict:
`scores[doc_idx] = scores.get(doc_idx, 0.0) + idf * (...)`. -/
def sparsePostingsStep (k1 b avgdl : ℚ) (doc_len : List Nat) (idfv : ℚ)
    (sc : List (Nat × ℚ)) (p : Nat × Nat) : List (Nat × ℚ) :=
  dictSet p.1 (aget p.1 0 sc + contribOf k1 b avgdl doc_len idfv p) sc

/-- One query term applied to the sparse score dict. -/
def sparseTermStep (idx : BM25Index) (sc : List (Nat × ℚ)) (term : String) :
    List (Nat × ℚ) :=
  match alookup term idx.postings with
  | none => sc
  | some plist =>
    if plist = [] then sc
    else
      plist.foldl (sparsePostingsStep idx.k1 idx.b idx.avgdl idx.doc_len (aget term 0 idx.idf))
        sc

/-- The sparse score dict of `bm25_search` (doc_idx → accumulated score),
built in first-hit insertion order. -/
def sparseScores (idx : BM25Index) (query_tokens : List String) : List (Nat × ℚ) :=
  (distinctTokens query_tokens).foldl (sparseTermStep idx) []

instance instDecRelDescKey {α : Type} (key : α → ℚ) :
    DecidableRel (fun a b : α => key b ≤ key a) :=
  fun a b => inferInstanceAs (Decidable (key b ≤ key a))

/-- Python stable descending sort by a rational key
(`sorted(..., key=key, reverse=True)` / `list.sort(key=key, reverse=True)`). -/
def sortDescBy {α : Type} (key : α → ℚ) (l : List α) : List α :=
  List.insertionSort (fun a b => key b ≤ key a) l

/-- Building one result row of `bm25_search` from a ranked `(doc_idx, score)`
pair: the copied (or empty) meta dict, the always-attached index and score,
and the synthesized `doc_id` when the meta field is missing or blank. -/
def mkHit (idx : BM25Index) (include_meta : Bool) (p : Nat × ℚ) : Hit :=
  let meta := if include_meta then idx.docs_meta.getD p.1 emptyMeta else emptyMeta
  let did := if isBlankId meta.doc_id then "doc_" ++ toString p.1 else meta.doc_id.getD ""
  Hit.mk meta p.1 p.2 did

/-- `bm25_search`. -/
def bm25_search (idx : BM25Index) (query_tokens : List String) (top_k : Nat)
    (include_meta : Bool) : List Hit :=
  if query_tokens = [] then []
  else
    let scores := sparseScores idx query_tokens
    if scores = [] then []
    else
      ((sortDescBy (fun p : Nat × ℚ => p.2) scores).take top_k).map
        (mkHit idx include_meta)

/-! ## recommend.py -/

/-- The lowercased query-token set of `recommend_citations`
(`set([t.lower() for t in query_tokens if t])`), as an insertion-order list. -/
def lowerQuerySet (query_tokens : List String) : List String :=
  dedupFirst ((query_tokens.filter (fun t => ¬ t = "")).map lowerStr)

/-- Tokens of a declared keyword string:
`keyword.replace(",", " ").split()`, stripped, lowercased, as a set. -/
def kwTokenSet (kw : String) : List String :=
  dedupFirst
    (((charRuns (fun c => ¬ isSpaceChar c)
        (kw.data.map (fun c => if c = ',' then ' ' else c)) []).filter
      (fun s => ¬ s = "")).map lowerStr)

/-- `_keyword_overlap_bonus`: `0.15 * |query_token_set ∩ keyword_tokens|`.
`if not keyword` catches both a missing field and an empty string. -/
def keyword_overlap_bonus (qset : List String) (keyword : Option String) : ℚ :=
  match keyword with
  | none => 0
  | some kw =>
    if kw = "" then 0
    else
      let kts := kwTokenSet kw
      if kts = [] then 0
      else (15 / 100) * ((kts.filter (fun t => t ∈ qset)).length : ℚ)

/-- `_year_freshness_bonus`: `max(0, year - 2018) * 0.01`, with the year parsed
from the first 4 characters of the stripped date when they are (ASCII) digits. -/
def year_freshness_bonus (tanggal : Option String) : ℚ :=
  match tanggal with
  | none => 0
  | some s =>
    if s = "" then 0
    else
      let tgl := trimStr s
      let c4 := tgl.data.take 4
      if 4 <= tgl.length ∧ c4.all isDigitChar then
        let year : ℤ := ((c4.foldl (fun n c => 10 * n + (c.toNat - 48)) 0 : Nat) : ℤ)
        ((max 0 (year - 2018) : ℤ) : ℚ) * (1 / 100)
      else 0

/-- `_title_tokens`: the set of `_WORD_RE` word tokens of the lowercased,
stripped title (as an insertion-order list; only membership and cardinality
are ever used). -/
def titleTokens (title : String) : List String :=
  let t := trimStr (lowerStr title)
  if t = "" then [] else dedupFirst (charRuns isWordChar t.data [])

/-- The diversification test of recommend_citations:
`len(tt & prev) / (len(tt | prev) + 1e-9) >= 0.65` on title-token sets. -/
def jaccardGe (tt prev : List String) : Bool :=
  let inter := (tt.filter (fun t => t ∈ prev)).length
  let uni := (dedupFirst (tt ++ prev)).length
  decide ((65 / 100 : ℚ) ≤ (inter : ℚ) / ((uni : ℚ) + eps))

/-- One reranked candidate: the BM25 hit plus its `score2`.  The source also
attaches a `snippet` (best abstract sentence) and, when possible, an
`explain` dict; both are display-only fields that never influence scores or
selection — `_explain_bm25` in fact always yields nothing here, because
`BM25Index` has none of the `doc_term_freqs` / `doc_tf` / `term_freqs`
attributes `_bm25_term_contributions` probes for — so they are not modelled. -/
structure RecoItem where
  hit : Hit
  score2 : ℚ
  deriving DecidableEq, Repr

/-- The rerank step of recommend_citations:
`score2 = score + keyword_overlap_bonus + year_freshness_bonus`. -/
def rerankItem (qset : List String) (h : Hit) : RecoItem :=
  RecoItem.mk h
    (h.score + (keyword_overlap_bonus qset h.meta.keyword + year_freshness_bonus h.meta.tanggal))

/-- The reranked candidate pool with an explicit BM25 result cap. -/
def citationBaseWith (idx : BM25Index) (query_tokens : List String) (candidate_k : Nat) :
    List RecoItem :=
  (bm25_search idx query_tokens candidate_k true).map (rerankItem (lowerQuerySet query_tokens))

/-- The pool recommend_citations actually retrieves: `top_k=top_k * 4`. -/
def citationBase (idx : BM25Index) (query_tokens : List String) (top_k : Nat) : List RecoItem :=
  citationBaseWith idx query_tokens (top_k * 4)

/-- The pool after `base.sort(key=lambda x: x.get("score2", 0.0), reverse=True)`. -/
def citationRanked (idx : BM25Index) (query_tokens : List String) (top_k : Nat) : List RecoItem :=
  sortDescBy (fun it => it.score2) (citationBase idx query_tokens top_k)

/-- The title token set the diversification loop computes for an item
(`_title_tokens(item.get("judul") or "")`). -/
def itemTitleTokens (it : RecoItem) : List String :=
  titleTokens (it.hit.meta.judul.getD "")

/-- The diversification loop of recommend_citations, with `acc` the selected
items in reverse and `seen` the kept non-empty title-token sets.  An item with
an empty title-token set is always kept; otherwise it is kept iff no kept set
is Jaccard-similar (≥ 0.65); after every append (and in the drop branch, on
the unchanged list) the loop stops once `top_k <= len(selected)`. -/
def diversifyLoop (top_k : Nat) :
    List RecoItem → List (List String) → List RecoItem → List RecoItem
  | [], _, acc => acc.reverse
  | item :: rest, seen, acc =>
    if itemTitleTokens item = [] then
      if top_k ≤ (item :: acc).length then (item :: acc).reverse
      else diversifyLoop top_k rest seen (item :: acc)
    else
      if seen.any (fun prev => jaccardGe (itemTitleTokens item) prev) then
        if top_k ≤ acc.length then acc.reverse else diversifyLoop top_k rest seen acc
      else
        if top_k ≤ (item :: acc).length then (item :: acc).reverse
        else diversifyLoop top_k rest (seen ++ [itemTitleTokens item]) (item :: acc)

/-- `recommend_citations` (the unused `docs_by_id = getattr(index, "docs_by_id",
None)` read of the source is dropped). -/
def recommend_citations (idx : BM25Index) (query_tokens : List String) (top_k : Nat)
    (diversify : Bool) : List RecoItem :=
  let base := citationRanked idx query_tokens top_k
  if diversify then diversifyLoop top_k base [] [] else base.take top_k

/-! ## Spec-side definitions for the reranker claims (C1, C2, C3).
These follow the words of the specification, to be compared with the source
functions above; they are not translations of the source. -/

/-- Modelled from the spec (claim C1): linearly interpolated 75th percentile
of a list of scores. -/
def p75 (l : List ℚ) : ℚ :=
  let s := sortDescBy (fun x : ℚ => -x) l
  match s with
  | [] => 0
  | _ :: _ =>
    let n := s.length
    let i : Nat := (3 * (n - 1)) / 4
    let r : ℚ := (3 * ((n : ℚ) - 1)) / 4
    let lo := s.getD i 0
    let hi := s.getD (min (i + 1) (n - 1)) 0
    lo + (r - (i : ℚ)) * (hi - lo)

/-- Modelled from the spec (claim C1): the cutoff-selection the claim asserts
for `recommend_citations` — keep the candidates with
`score2 ≥ max(0.65 * max(score2), p75(score2))` in descending order, capped at
`top_k`; if fewer than `min(3, pool size)` survive, take the top
`min(3, pool size)` by `score2` instead. -/
def claimC1Result (idx : BM25Index) (query_tokens : List String) (top_k : Nat) :
    List RecoItem :=
  let pool := citationBase idx query_tokens top_k
  let ranked := sortDescBy (fun it => it.score2) pool
  let mx : ℚ := match ranked with | [] => 0 | x :: _ => x.score2
  let cutoff := max ((65 / 100) * mx) (p75 (pool.map (fun it => it.score2)))
  let kept := ranked.filter (fun it => cutoff ≤ it.score2)
  let m := min 3 pool.length
  (if kept.length < m then ranked.take m else kept).take top_k

/-- Modelled from the spec (claim C2): the dedup key of a result item —
`url`, else `judul`, else `doc_id`. -/
def dedupKey (it : RecoItem) : String :=
  let u := it.hit.meta.url.getD ""
  if ¬ u = "" then u
  else
    let j := it.hit.meta.judul.getD ""
    if ¬ j = "" then j else it.hit.doc_id

/-- Modelled from the spec (claim C2): keep an item unless its dedup key was
already kept. -/
def specDedup (seenKeys : List String) : List RecoItem → List RecoItem
  | [] => []
  | it :: rest =>
    if dedupKey it ∈ seenKeys then specDedup seenKeys rest
    else it :: specDedup (dedupKey it :: seenKeys) rest

/-- Modelled from the spec (claim C2): diversification with backfill — dedup
by key, then refill from the dropped remainder in rank order until the
pre-diversification count is restored. -/
def claimC2Diversify (slice : List RecoItem) : List RecoItem :=
  let kept := specDedup [] slice
  if kept.length < slice.length then
    kept ++ (slice.filter (fun it => ¬ it ∈ kept)).take (slice.length - kept.length)
  else kept

/-- Modelled from the spec (claim C2): the output the claim asserts for
`recommend_citations` with diversification enabled. -/
def claimC2Result (idx : BM25Index) (query_tokens : List String) (top_k : Nat) :
    List RecoItem :=
  claimC2Diversify ((citationRanked idx query_tokens top_k).take top_k)

/-- Modelled from the spec (claim C3): `recommend_citations` as the claim
describes its pool — identical downstream processing, but the candidate pool
retrieved with `candidate_k = max(30, top_k * 5)`. -/
def claimC3Recommend (idx : BM25Index) (query_tokens : List String) (top_k : Nat)
    (diversify : Bool) : List RecoItem :=
  let base := sortDescBy (fun it => it.score2)
    (citationBaseWith idx query_tokens (max 30 (top_k * 5)))
  if diversify then diversifyLoop top_k base [] [] else base.take top_k

/-! ## supervisor_profiles.py -/

/-- The `GENERIC_TERMS` blocklist of supervisor_profiles.py. -/
def GENERIC_TERMS_SUP : List String :=
  ["deteksi", "prediksi", "klasifikasi", "klaster", "pengembangan", "analisis",
   "sistem", "metode", "model", "algoritma", "pendekatan", "penerapan",
   "berbasis", "menggunakan", "dengan", "untuk", "pada", "dalam", "terhadap",
   "data", "dataset", "fitur", "seleksi", "optimasi", "evaluasi",
   "method", "methods", "model", "models", "algorithm", "algorithms",
   "approach", "system", "analysis", "data", "feature", "features",
   "classification", "prediction", "detection", "optimization", "evaluation",
   "machine", "learning", "deep", "neural", "network", "networks"]

/-- `_safe_log1p(x) = log(1.0 + max(0.0, x))`, with `logf` abstracting
`math.log`. -/
def safe_log1p (logf : ℚ → ℚ) (x : ℚ) : ℚ := logf (1 + max 0 x)

/-- One supervisor profile as stored in the profiles object
(`vector`, `norm`, `top_terms`, `samples`, `pub_count`). -/
structure ProfileInfo where
  vector : List (String × ℚ)
  norm : ℚ
  top_terms : List String
  samples : List Meta
  pub_count : Nat
  deriving DecidableEq, Repr

/-- The profiles object consumed by `recommend_supervisors`
(its `idf` and `profiles` entries). -/
structure ProfilesObj where
  idf : List (String × ℚ)
  profiles : List (String × ProfileInfo)
  deriving DecidableEq, Repr

/-- One evidence row of `cosine_and_evidence`. -/
structure Evidence where
  term : String
  q_w : ℚ
  d_w : ℚ
  contrib : ℚ
  deriving DecidableEq, Repr

/-- One result row of `recommend_supervisors`. -/
structure SupItem where
  dosen : String
  score : ℚ
  similarity : ℚ
  matched_terms : List String
  evidence_terms : List Evidence
  pub_count : Nat
  samples : List Meta
  top_terms : List String
  deriving DecidableEq, Repr, Inhabited

/-- The query term-frequency dict (`qtf`), empty tokens skipped. -/
def qtfOf (query_tokens : List String) : List (String × Nat) :=
  query_tokens.foldl (fun qtf t => if t = "" then qtf else dictSet t (aget t 0 qtf + 1) qtf) []

/-- Anchor-term selection of `recommend_supervisors`: distinct query terms
present in the idf table and not generic, sorted by idf descending, the first
`max(1, anchor_top_n)` of them kept only when `idf ≥ anchor_idf_min`. -/
def anchorsOf (idf : List (String × ℚ)) (query_tokens : List String)
    (anchor_top_n : Nat) (anchor_idf_min : ℚ) : List String :=
  let q_terms_unique := (qtfOf query_tokens).map Prod.fst
  let cands := q_terms_unique.filter
    (fun t => (alookup t idf).isSome && ! GENERIC_TERMS_SUP.contains t)
  let sorted := sortDescBy (fun t => aget t 0 idf) cands
  (sorted.take (max 1 anchor_top_n)).filter (fun t => decide (anchor_idf_min ≤ aget t 0 idf))

/-- The query vector of `recommend_supervisors`, including the (provably
vacuous, but modelled) fallback loop for an empty `qvec`. -/
def qvecOf (logf : ℚ → ℚ) (idf : List (String × ℚ)) (query_tokens : List String)
    (generic_downweight : ℚ) (anchors : List String) : List (String × ℚ) :=
  let qtf := qtfOf query_tokens
  let base := qtf.foldl (fun qv p =>
    if (alookup p.1 idf).isSome then
      let w := (1 + safe_log1p logf (p.2 : ℚ)) * aget p.1 0 idf
      let w2 := if p.1 ∈ GENERIC_TERMS_SUP ∧ ¬ p.1 ∈ anchors then w * generic_downweight else w
      dictSet p.1 w2 qv
    else qv) []
  if base = [] ∧ ¬ qtf = [] then
    qtf.foldl (fun qv p =>
      let w := (1 + safe_log1p logf (p.2 : ℚ)) * aget p.1 0 idf
      if 0 < w then dictSet p.1 w qv else qv) []
  else base

/-- `cosine_and_evidence`: dot product over the query-vector terms with
positive profile weight, normalized by `qnorm * (norm + 1e-9)`; evidence rows
sorted by contribution, top `top_evidence` kept. -/
def cosineEvidence (qvec : List (String × ℚ)) (qnorm : ℚ) (vec : List (String × ℚ))
    (norm : ℚ) (top_evidence : Nat) : ℚ × List Evidence :=
  let de := qvec.foldl (fun (s : ℚ × List Evidence) p =>
    let dw := aget p.1 0 vec
    if dw ≤ 0 then s
    else (s.1 + p.2 * dw, s.2 ++ [Evidence.mk p.1 p.2 dw (p.2 * dw)])) (0, [])
  (de.1 / (qnorm * (norm + eps)), (sortDescBy (fun e => e.contrib) de.2).take top_evidence)

/-- One iteration of the scoring loop of `recommend_supervisors`: anchor
gating, cosine with evidence, matched `top_terms`,
`score = sim + 0.03 * |matched|`, and the noise skip
(`sim <= 0 and not matched`). -/
def supStep (query_tokens : List String) (anchors : List String)
    (qvec : List (String × ℚ)) (qnorm : ℚ)
    (scored : List SupItem) (pr : String × ProfileInfo) : List SupItem :=
  if ¬ anchors = [] ∧ ¬ anchors.any (fun a => decide (0 < aget a 0 pr.2.vector)) then scored
  else
    let se := cosineEvidence qvec qnorm pr.2.vector pr.2.norm 6
    let matched := (pr.2.top_terms.filter (fun t => decide (t ∈ query_tokens))).take 8
    let bonus := (3 / 100) * (matched.length : ℚ)
    if se.1 ≤ 0 ∧ matched = [] then scored
    else scored ++ [SupItem.mk pr.1 (se.1 + bonus) se.1 matched se.2
      pr.2.pub_count pr.2.samples (pr.2.top_terms.take 10)]

/-- The scoring loop of `recommend_supervisors` over all profiles.
`sqrtf` abstracts `math.sqrt`. -/
def scoredOf (logf sqrtf : ℚ → ℚ) (pobj : ProfilesObj) (query_tokens : List String)
    (anchor_top_n : Nat) (anchor_idf_min generic_downweight : ℚ) : List SupItem :=
  let anchors := anchorsOf pobj.idf query_tokens anchor_top_n anchor_idf_min
  let qvec := qvecOf logf pobj.idf query_tokens generic_downweight anchors
  let qnorm := sqrtf ((qvec.map (fun p => p.2 * p.2)).foldl (fun a x => a + x) 0) + eps
  pobj.profiles.foldl (supStep query_tokens anchors qvec qnorm) []

/-- `max(similarity over scored) or 0.0` of the source (on exact rationals the
`or 0.0` only rewrites 0 to 0, so it is the plain maximum). -/
def bestSim : List SupItem → ℚ
  | [] => 0
  | x :: xs => xs.foldl (fun m y => max m y.similarity) x.similarity

/-- The scored list after `scored.sort(key=lambda x: x["score"], reverse=True)`. -/
def rankedSupervisors (logf sqrtf : ℚ → ℚ) (pobj : ProfilesObj) (query_tokens : List String)
    (anchor_top_n : Nat) (anchor_idf_min generic_downweight : ℚ) : List SupItem :=
  sortDescBy (fun x => x.score)
    (scoredOf logf sqrtf pobj query_tokens anchor_top_n anchor_idf_min generic_downweight)

/-- The hard-filter cutoff: `max(min_similarity, best_sim * rel_cutoff)`. -/
def supCutoff (min_similarity rel_cutoff : ℚ) (ranked : List SupItem) : ℚ :=
  max min_similarity (bestSim ranked * rel_cutoff)

/-- The supervisors surviving the hard filter (`similarity >= cutoff`). -/
def supFiltered (min_similarity rel_cutoff : ℚ) (ranked : List SupItem) : List SupItem :=
  ranked.filter (fun x : SupItem => decide (supCutoff min_similarity rel_cutoff ranked ≤ x.similarity))

/-- `recommend_supervisors`.  Python defaults: `top_k=5`,
`min_similarity=0.08`, `rel_cutoff=0.35`, `anchor_top_n=2`,
`anchor_idf_min=0.65`, `generic_downweight=0.35`. -/
def recommend_supervisors (logf sqrtf : ℚ → ℚ) (pobj : ProfilesObj)
    (query_tokens : List String) (top_k : Nat) (min_similarity rel_cutoff : ℚ)
    (anchor_top_n : Nat) (anchor_idf_min generic_downweight : ℚ) : List SupItem :=
  let ranked := rankedSupervisors logf sqrtf pobj query_tokens anchor_top_n anchor_idf_min
    generic_downweight
  if ¬ ranked = [] then
    let filtered := supFiltered min_similarity rel_cutoff ranked
    if ¬ filtered = [] then filtered.take top_k else ranked.take top_k
  else ranked.take top_k

/-! ## query_expansion.py -/

/-- The `GENERIC_TERMS` blocklist of query_expansion.py. -/
def GENERIC_TERMS_EXP : List String :=
  ["penelitian", "analisis", "sistem", "metode", "model", "algoritma",
   "menggunakan", "berbasis", "dengan", "untuk", "pada", "dalam", "terhadap",
   "pengembangan", "penerapan", "perancangan", "implementasi", "pengujian",
   "uji", "hasil", "kinerja", "tingkat", "meningkatkan", "akurasi",
   "studi", "kasus", "data", "dataset", "fitur", "seleksi", "optimasi",
   "evaluasi", "perbandingan", "rekomendasi", "pemilihan", "program",
   "jadi", "sesuai", "kemampuan", "universitas", "dian", "nuswantoro",
   "mahasiswa", "s1", "prodi", "teknik", "informatika", "jalur", "peminatan",
   "indeks", "index", "series", "tree",
   "study", "analysis", "system", "method", "methods", "model", "models",
   "algorithm", "algorithms", "approach", "using", "based", "data",
   "dataset", "feature", "features", "evaluation", "performance",
   "application", "implementation", "design"]

/-- An initial hit as seen by `expand_query_from_top_docs` — only its
`doc_id` field is ever read. -/
structure ExpHit where
  doc_id : Option String
  deriving DecidableEq, Repr

/-- A stored document as seen by `expand_query_from_top_docs` — only its
`tokens` field (`doc.get("tokens", []) or []`) is ever read. -/
structure ExpDoc where
  tokens : List String
  deriving DecidableEq, Repr

/-- The token lists of the documents the first `top_docs` hits resolve to
(`initial_hits[:top_docs]`, skipping hits with a falsy `doc_id` or no match
in `docs_by_id`). -/
def expandResolve (docs_by_id : List (String × ExpDoc)) (initial_hits : List ExpHit)
    (top_docs : Nat) : List (List String) :=
  (initial_hits.take top_docs).foldl (fun acc h =>
    match h.doc_id with
    | none => acc
    | some i =>
      if i = "" then acc
      else
        match alookup i docs_by_id with
        | none => acc
        | some doc => acc ++ [doc.tokens]) []

/-- One token of one resolved document: skip empty/short tokens, query terms
and generic terms; otherwise bump `tf` and record the token in
`seen_in_doc`. -/
def scanTok (qset : List String) (p : List (String × Nat) × List String) (t : String) :
    List (String × Nat) × List String :=
  if t = "" ∨ t.length ≤ 2 then p
  else if t ∈ qset then p
  else if t ∈ GENERIC_TERMS_EXP then p
  else (dictSet t (aget t 0 p.1 + 1) p.1, if t ∈ p.2 then p.2 else p.2 ++ [t])

/-- Scanning one resolved document: bump `used`, accumulate `tf` over the
kept tokens and `df` once per document.  `seen_in_doc` is a Python set whose
iteration order is unspecified; it is modelled in insertion order, which
fixes only the key order of `df`, not any `df` value. -/
def expandScanDoc (qset : List String)
    (st : Nat × List (String × Nat) × List (String × Nat)) (toks : List String) :
    Nat × List (String × Nat) × List (String × Nat) :=
  let tfseen := toks.foldl (scanTok qset) (st.2.1, [])
  (st.1 + 1, tfseen.1, tfseen.2.foldl (fun df t => dictSet t (aget t 0 df + 1) df) st.2.2)

/-- Scoring one accumulated `(term, tf)` entry of the expansion candidates:
drop it when `df < min_df_in_top_docs`, or (when an idf table was supplied)
when its idf falls below `min_idf`; otherwise append it with score
`tf * log(1 + df)`, times `max(0, idf)` when a table was supplied. -/
def termIdfOf (idf : Option (List (String × ℚ))) (t : String) : ℚ :=
  match idf with
  | some m => if ¬ m = [] then aget t 0 m else 0
  | none => 0

def expandStep (logf : ℚ → ℚ) (df : List (String × Nat))
    (idf : Option (List (String × ℚ))) (min_df_in_top_docs : Nat) (min_idf : ℚ)
    (sc : List (String × ℚ)) (p : String × Nat) : List (String × ℚ) :=
  let dfi := aget p.1 1 df
  if dfi < min_df_in_top_docs then sc
  else
    let term_idf := termIdfOf idf p.1
    if idf.isSome ∧ term_idf < min_idf then sc
    else
      let score0 := (p.2 : ℚ) * logf (1 + (dfi : ℚ))
      let score := if idf.isSome then score0 * max 0 term_idf else score0
      sc ++ [(p.1, score)]

/-- `expand_query_from_top_docs`.  Python defaults: `max_expand=8`,
`top_docs=8`, `min_df_in_top_docs=2`, `min_idf=0.35`.  `logf` abstracts
`math.log`. -/
def expand_query_from_top_docs (logf : ℚ → ℚ) (docs_by_id : List (String × ExpDoc))
    (initial_hits : List ExpHit) (query_tokens : List String) (max_expand top_docs : Nat)
    (idf : Option (List (String × ℚ))) (min_df_in_top_docs : Nat) (min_idf : ℚ) :
    List String :=
  let docs := expandResolve docs_by_id initial_hits top_docs
  let st := docs.foldl (expandScanDoc query_tokens) (0, [], [])
  if st.1 = 0 then query_tokens
  else
    let scored := st.2.1.foldl (expandStep logf st.2.2 idf min_df_in_top_docs min_idf) []
    if scored = [] then query_tokens
    else
      query_tokens ++
        ((sortDescBy (fun pr : String × ℚ => pr.2) scored).take max_expand).map Prod.fst

/-! ## Basic lemmas about the dict, set and sorting models -/

theorem alookup_dictSet {κ ν : Type} [DecidableEq κ] (k p : κ) (v : ν) (m : List (κ × ν)) :
    alookup p (dictSet k v m) = if p = k then some v else alookup p m := by
  induction m with
  | nil =>
    by_cases h : p = k
    · simp [dictSet, alookup, h]
    · have h2 : ¬ k = p := fun hh => h hh.symm
      simp [dictSet, alookup, h, h2]
  | cons q rest ih =>
    by_cases hqk : q.1 = k
    · by_cases hpk : p = k
      · simp [dictSet, alookup, hqk, hpk]
      · have hkp : ¬ k = p := fun hh => hpk hh.symm
        have hqp : ¬ q.1 = p := by rw [hqk]; exact hkp
        simp [dictSet, alookup, hqk, hpk, hkp, hqp]
    · by_cases hpk : p = k
      · have hqp : ¬ q.1 = p := by rw [hpk]; exact hqk
        subst hpk
        simp [dictSet, alookup, hqk, hqp, ih]
      · by_cases hqp : q.1 = p <;> simp [dictSet, alookup, hqk, hpk, hqp, ih]

theorem alookup_mem {κ ν : Type} [DecidableEq κ] {k : κ} {v : ν} :
    ∀ {m : List (κ × ν)}, alookup k m = some v → (k, v) ∈ m := by
  intro m
  induction m with
  | nil => intro h; simp [alookup] at h
  | cons q rest ih =>
    obtain ⟨a, b⟩ := q
    intro h
    by_cases hq : a = k
    · simp [alookup, hq] at h
      rw [← hq, ← h]
      exact List.mem_cons_self _ _
    · simp [alookup, hq] at h
      exact List.mem_cons_of_mem _ (ih h)

theorem alookup_isSome_iff {κ ν : Type} [DecidableEq κ] (k : κ) :
    ∀ (m : List (κ × ν)), (alookup k m).isSome = true ↔ k ∈ m.map Prod.fst := by
  intro m
  induction m with
  | nil => simp [alookup]
  | cons q rest ih =>
    by_cases hq : q.1 = k
    · simp [alookup, hq]
    · have hkq : ¬ k = q.1 := fun h => hq h.symm
      simp [alookup, hq, hkq, ih]

theorem alookup_of_mem_nodup {κ ν : Type} [DecidableEq κ] {k : κ} {v : ν} :
    ∀ {m : List (κ × ν)}, (m.map Prod.fst).Nodup → (k, v) ∈ m → alookup k m = some v := by
  intro m
  induction m with
  | nil => intro _ h; simp at h
  | cons q rest ih =>
    intro hnd hmem
    have hnd2 : q.1 ∉ rest.map Prod.fst ∧ (rest.map Prod.fst).Nodup := by
      rw [List.map_cons, List.nodup_cons] at hnd
      exact hnd
    rcases List.mem_cons.1 hmem with heq | htl
    · rw [← heq]
      simp [alookup]
    · have hk : k ∈ rest.map Prod.fst := List.mem_map.2 ⟨(k, v), htl, rfl⟩
      have hq : ¬ q.1 = k := fun h => hnd2.1 (by rw [h]; exact hk)
      simp [alookup, hq]
      exact ih hnd2.2 htl

theorem dictSet_map_fst {κ ν : Type} [DecidableEq κ] (k : κ) (v : ν) :
    ∀ (m : List (κ × ν)),
      (dictSet k v m).map Prod.fst =
        if k ∈ m.map Prod.fst then m.map Prod.fst else m.map Prod.fst ++ [k] := by
  intro m
  induction m with
  | nil => simp [dictSet]
  | cons q rest ih =>
    by_cases hq : q.1 = k
    · simp [dictSet, hq]
    · have hkq : ¬ k = q.1 := fun h => hq h.symm
      by_cases hk : k ∈ rest.map Prod.fst
      · simp [dictSet, hq, ih, hk, hkq]
      · simp [dictSet, hq, ih, hk, hkq]

theorem dictSet_nodup {κ ν : Type} [DecidableEq κ] (k : κ) (v : ν)
    {m : List (κ × ν)} (h : (m.map Prod.fst).Nodup) :
    ((dictSet k v m).map Prod.fst).Nodup := by
  rw [dictSet_map_fst]
  by_cases hk : k ∈ m.map Prod.fst <;> simp [hk, h, List.nodup_append]

theorem mem_foldl_dedup {α : Type} [DecidableEq α] (x : α) :
    ∀ (l acc : List α),
      (x ∈ l.foldl (fun acc t => if t ∈ acc then acc else acc ++ [t]) acc ↔ x ∈ acc ∨ x ∈ l) := by
  intro l
  induction l with
  | nil => intro acc; simp
  | cons h t ih =>
    intro acc
    rw [List.foldl_cons]
    by_cases hh : h ∈ acc
    · rw [if_pos hh, ih]
      constructor
      · rintro (hx | hx)
        · exact Or.inl hx
        · exact Or.inr (List.mem_cons_of_mem _ hx)
      · rintro (hx | hx)
        · exact Or.inl hx
        · rcases List.mem_cons.1 hx with rfl | hx2
          · exact Or.inl hh
          · exact Or.inr hx2
    · rw [if_neg hh, ih]
      rw [List.mem_append, List.mem_singleton, List.mem_cons]
      tauto

theorem mem_dedupFirst {α : Type} [DecidableEq α] {x : α} {l : List α} :
    x ∈ dedupFirst l ↔ x ∈ l := by
  rw [dedupFirst, mem_foldl_dedup]
  simp

theorem sortDescBy_perm {α : Type} (key : α → ℚ) (l : List α) :
    List.Perm (sortDescBy key l) l :=
  List.perm_insertionSort _ l

theorem mem_sortDescBy {α : Type} {key : α → ℚ} {l : List α} {x : α} :
    x ∈ sortDescBy key l ↔ x ∈ l :=
  (sortDescBy_perm key l).mem_iff

theorem sortDescBy_sorted {α : Type} (key : α → ℚ) (l : List α) :
    (sortDescBy key l).Sorted (fun a b => key b ≤ key a) := by
  haveI : IsTotal α (fun a b : α => key b ≤ key a) := ⟨fun a b => le_total (key b) (key a)⟩
  haveI : IsTrans α (fun a b : α => key b ≤ key a) := ⟨fun a b c h1 h2 => le_trans h2 h1⟩
  exact List.sorted_insertionSort _ l

theorem sortDescBy_length {α : Type} (key : α → ℚ) (l : List α) :
    (sortDescBy key l).length = l.length :=
  (sortDescBy_perm key l).length_eq

/-! ## Claim C8 — index build fails exactly on mismatched input lengths -/

/-- C8: for every pair of input lists (and tuning constants and logarithm),
`build_bm25_index` produces an index exactly when the per-document
token-sequence list and the metadata list have equal length; on a mismatch it
raises (models as `Except.error`) and no index is produced. -/
theorem build_ok_iff_length_eq (logf : ℚ → ℚ) (docs_tokens : List (List String))
    (docs_meta : List Meta) (k1 b : ℚ) :
    (∃ idx, build_bm25_index logf docs_tokens docs_meta k1 b = Except.ok idx) ↔
      docs_meta.length = docs_tokens.length := by
  unfold build_bm25_index
  by_cases h : docs_meta.length = docs_tokens.length <;> simp [h]

/-! ## Claim C9 — empty tokens and the built index -/

/-- Skipping a sentinel inside a fold is folding over the filtered list. -/
theorem foldl_ite_skip {α β : Type} [DecidableEq α] (emptyv : α) (f : β → α → β) :
    ∀ (l : List α) (acc : β),
      l.foldl (fun acc x => if x = emptyv then acc else f acc x) acc
        = (l.filter (fun x => ¬ x = emptyv)).foldl f acc := by
  intro l
  induction l with
  | nil => intro acc; simp
  | cons h t ih =>
    intro acc
    by_cases hh : h = emptyv <;> simp [hh, ih]

/-- The per-document tf dict ignores empty tokens: filtering them away first
changes nothing. -/
theorem tfCounts_filter (toks : List String) :
    tfCounts (toks.filter (fun t => ¬ t = "")) = tfCounts toks := by
  unfold tfCounts
  rw [foldl_ite_skip, foldl_ite_skip, List.filter_filter]
  simp

/-- Unfolding `build_bm25_index` on length-matched inputs. -/
theorem build_eq_ok (logf : ℚ → ℚ) (dt : List (List String)) (dm : List Meta) (k1 b : ℚ)
    (h : dm.length = dt.length) :
    build_bm25_index logf dt dm k1 b = Except.ok (BM25Index.mk k1 b
      ((dt.enum).foldl buildStep ([], [])).1
      (buildIdf logf dt.length ((dt.enum).foldl buildStep ([], [])).1)
      (dt.map List.length)
      (if dt.length ≠ 0 then
        (((dt.map List.length).foldl (fun a x => a + x) 0 : Nat) : ℚ) / (dt.length : ℚ) else 0)
      ((dt.enum).foldl buildStep ([], [])).2
      dm) := by
  unfold build_bm25_index
  rw [if_neg (fun hne => hne h)]

/-- C9 (amended): on any length-matched inputs, building from token sequences
with empty-string tokens removed yields the same `vocab_df`, `idf` and
`postings` as building from the raw sequences; `doc_len` (and `avgdl`), in
contrast, are computed from raw token counts that include the empty strings. -/
theorem build_filter_empty_agree (logf : ℚ → ℚ) (dt : List (List String)) (dm : List Meta)
    (k1 b : ℚ) (h : dm.length = dt.length) :
    ∃ i1 i2,
      build_bm25_index logf dt dm k1 b = Except.ok i1 ∧
      build_bm25_index logf (dt.map (fun d => d.filter (fun t => ¬ t = ""))) dm k1 b
        = Except.ok i2 ∧
      i1.vocab_df = i2.vocab_df ∧ i1.idf = i2.idf ∧ i1.postings = i2.postings := by
  have hlen : (dt.map (fun d => d.filter (fun t => ¬ t = ""))).length = dt.length := by
    simp
  have hdf : ((dt.map (fun d => d.filter (fun t => ¬ t = ""))).enum).foldl buildStep ([], [])
      = (dt.enum).foldl buildStep ([], []) := by
    rw [List.enum_map, List.foldl_map]
    exact List.foldl_ext _ _ ([], []) (fun acc p hp => by
      unfold buildStep
      simp only [Prod.map, id]
      rw [tfCounts_filter])
  have h1 := build_eq_ok logf dt dm k1 b h
  have h2 := build_eq_ok logf (dt.map (fun d => d.filter (fun t => ¬ t = ""))) dm k1 b
    (by rw [hlen]; exact h)
  rw [hlen, hdf] at h2
  exact ⟨_, _, h1, h2, rfl, rfl, rfl⟩

/-- C9 counterexample: the claim "the index built with empty-string tokens is
equal in all of its fields to the index built with them removed" is false —
for `docs_tokens = [[""]]` both builds succeed but their `doc_len` fields
differ: `[1]` (the raw token count) versus `[0]`. -/
theorem empty_token_doc_len_differs :
    (build_bm25_index id [[""]] [emptyMeta] (3/2) (3/4)).toOption.map BM25Index.doc_len
        = some [1] ∧
      (build_bm25_index id [[]] [emptyMeta] (3/2) (3/4)).toOption.map BM25Index.doc_len
        = some [0] := by
  refine ⟨by decide, by decide⟩

/-- Concrete use of the C9 amended theorem at `docs_tokens = [[""], ["a"]]`. -/
theorem build_filter_empty_agree_example :
    ∃ i1 i2,
      build_bm25_index id [[""], ["a"]] [emptyMeta, emptyMeta] (3/2) (3/4) = Except.ok i1 ∧
      build_bm25_index id ([[""], ["a"]].map (fun d => d.filter (fun t => ¬ t = "")))
          [emptyMeta, emptyMeta] (3/2) (3/4) = Except.ok i2 ∧
      i1.vocab_df = i2.vocab_df ∧ i1.idf = i2.idf ∧ i1.postings = i2.postings :=
  build_filter_empty_agree id [[""], ["a"]] [emptyMeta, emptyMeta] (3/2) (3/4) (by decide)

/-! ## Claims C1, C2, C3 — the citation reranker -/

/-- The diversified selection is the reversed accumulator followed by a
subsequence of the remaining candidates: diversification only drops items,
it never reorders or backfills. -/
theorem diversifyLoop_decomp (top_k : Nat) :
    ∀ (items : List RecoItem) (seen : List (List String)) (acc : List RecoItem),
      ∃ s, diversifyLoop top_k items seen acc = acc.reverse ++ s ∧ s.Sublist items := by
  intro items
  induction items with
  | nil =>
    intro seen acc
    exact ⟨[], by simp [diversifyLoop], List.nil_sublist []⟩
  | cons item rest ih =>
    intro seen acc
    by_cases htt : itemTitleTokens item = []
    · by_cases hlen : top_k ≤ acc.length + 1
      · refine ⟨[item], ?_, (List.nil_sublist rest).cons₂ item⟩
        simp [diversifyLoop, htt, hlen]
      · obtain ⟨s, hs, hsub⟩ := ih seen (item :: acc)
        refine ⟨item :: s, ?_, hsub.cons₂ item⟩
        simp [diversifyLoop, htt, hlen, hs]
    · by_cases hsim : seen.any (fun prev => jaccardGe (itemTitleTokens item) prev)
      · by_cases hlen : top_k ≤ acc.length
        · exact ⟨[], by simp [diversifyLoop, htt, hsim, hlen], List.nil_sublist _⟩
        · obtain ⟨s, hs, hsub⟩ := ih seen acc
          exact ⟨s, by simp [diversifyLoop, htt, hsim, hlen, hs], hsub.cons item⟩
      · by_cases hlen : top_k ≤ acc.length + 1
        · refine ⟨[item], ?_, (List.nil_sublist rest).cons₂ item⟩
          simp [diversifyLoop, htt, hsim, hlen]
        · obtain ⟨s, hs, hsub⟩ := ih (seen ++ [itemTitleTokens item]) (item :: acc)
          refine ⟨item :: s, ?_, hsub.cons₂ item⟩
          simp [diversifyLoop, htt, hsim, hlen, hs]

/-- Diversification caps the selection at `top_k` (for a positive cap). -/
theorem diversifyLoop_length (top_k : Nat) :
    ∀ (items : List RecoItem) (seen : List (List String)) (acc : List RecoItem),
      acc.length < top_k → (diversifyLoop top_k items seen acc).length ≤ top_k := by
  intro items
  induction items with
  | nil =>
    intro seen acc hacc
    simp [diversifyLoop]
    omega
  | cons item rest ih =>
    intro seen acc hacc
    by_cases htt : itemTitleTokens item = []
    · by_cases hlen : top_k ≤ acc.length + 1
      · simp [diversifyLoop, htt, hlen]
        omega
      · simp only [diversifyLoop, htt, if_true, List.length_cons, if_neg hlen]
        exact ih seen (item :: acc) (by simp; omega)
    · by_cases hsim : seen.any (fun prev => jaccardGe (itemTitleTokens item) prev)
      · by_cases hlen : top_k ≤ acc.length
        · simp [diversifyLoop, htt, hsim, hlen]
          omega
        · simp only [diversifyLoop, htt, hsim, if_neg hlen, if_false, if_true]
          exact ih seen acc hacc
      · by_cases hlen : top_k ≤ acc.length + 1
        · simp [diversifyLoop, htt, hsim, hlen]
          omega
        · simp only [diversifyLoop, htt, hsim, if_false, List.length_cons, if_neg hlen]
          exact ih (seen ++ [itemTitleTokens item]) (item :: acc) (by simp; omega)

/-- The dissimilarity diversification enforces between an earlier kept item
`a` and a later kept item `c`: when both have non-empty title-token sets, the
later one is not Jaccard-similar (the exact test the loop runs) to the
earlier one. -/
def DivOk (a c : RecoItem) : Prop :=
  ¬ itemTitleTokens a = [] → ¬ itemTitleTokens c = [] →
    ¬ jaccardGe (itemTitleTokens c) (itemTitleTokens a) = true

/-- The selection is pairwise dissimilar: diversification never keeps two
non-empty-titled items whose title Jaccard reaches the 0.65 threshold. -/
theorem diversifyLoop_pairwise (top_k : Nat) :
    ∀ (items : List RecoItem) (seen : List (List String)) (acc : List RecoItem),
      (∀ a ∈ acc, ¬ itemTitleTokens a = [] → itemTitleTokens a ∈ seen) →
      acc.Pairwise (fun c a => DivOk a c) →
      (diversifyLoop top_k items seen acc).Pairwise DivOk := by
  intro items
  induction items with
  | nil =>
    intro seen acc hseen hacc
    simpa [diversifyLoop, List.pairwise_reverse] using hacc
  | cons item rest ih =>
    intro seen acc hseen hacc
    by_cases htt : itemTitleTokens item = []
    · have hpw : (item :: acc).Pairwise (fun c a => DivOk a c) :=
        List.pairwise_cons.2 ⟨fun a _ => fun _ hc => absurd htt hc, hacc⟩
      have hsn : ∀ a ∈ item :: acc, ¬ itemTitleTokens a = [] → itemTitleTokens a ∈ seen := by
        intro a ha hne
        rcases List.mem_cons.1 ha with rfl | ha2
        · exact absurd htt hne
        · exact hseen a ha2 hne
      by_cases hlen : top_k ≤ acc.length + 1
      · have hrev := List.pairwise_reverse.2 hpw
        simp only [diversifyLoop, htt, if_true, List.length_cons, if_pos hlen]
        exact hrev
      · simp only [diversifyLoop, htt, if_true, List.length_cons, if_neg hlen]
        exact ih seen (item :: acc) hsn hpw
    · by_cases hsim : seen.any (fun prev => jaccardGe (itemTitleTokens item) prev)
      · by_cases hlen : top_k ≤ acc.length
        · simp only [diversifyLoop, htt, hsim, if_false, if_true, if_pos hlen]
          exact List.pairwise_reverse.2 hacc
        · simp only [diversifyLoop, htt, hsim, if_false, if_true, if_neg hlen]
          exact ih seen acc hseen hacc
      · have hnosim : ∀ prev ∈ seen, ¬ jaccardGe (itemTitleTokens item) prev = true := by
          intro prev hprev hj
          exact hsim (List.any_eq_true.2 ⟨prev, hprev, hj⟩)
        have hpw : (item :: acc).Pairwise (fun c a => DivOk a c) :=
          List.pairwise_cons.2 ⟨fun a ha => fun hne _ => hnosim _ (hseen a ha hne), hacc⟩
        have hsn : ∀ a ∈ item :: acc, ¬ itemTitleTokens a = [] →
            itemTitleTokens a ∈ seen ++ [itemTitleTokens item] := by
          intro a ha hne
          rcases List.mem_cons.1 ha with rfl | ha2
          · exact List.mem_append_right _ (List.mem_singleton.2 rfl)
          · exact List.mem_append_left _ (hseen a ha2 hne)
        by_cases hlen : top_k ≤ acc.length + 1
        · simp only [diversifyLoop, htt, hsim, if_false, List.length_cons, if_pos hlen]
          exact List.pairwise_reverse.2 hpw
        · simp only [diversifyLoop, htt, hsim, if_false, List.length_cons, if_neg hlen]
          exact ih (seen ++ [itemTitleTokens item]) (item :: acc) hsn hpw

/-- C1 (amended): with diversification disabled, `recommend_citations`
returns exactly the first `top_k` of the pool reranked by `score2`, in
descending `score2` order, with length `min top_k (pool size)` — no relevance
cutoff or fallback is applied anywhere. -/
theorem recommend_citations_no_cutoff (idx : BM25Index) (query_tokens : List String)
    (top_k : Nat) :
    recommend_citations idx query_tokens top_k false
        = (sortDescBy (fun it => it.score2) (citationBase idx query_tokens top_k)).take top_k ∧
      (recommend_citations idx query_tokens top_k false).Sorted
        (fun a c => c.score2 ≤ a.score2) ∧
      (recommend_citations idx query_tokens top_k false).length
        = min top_k (citationBase idx query_tokens top_k).length ∧
      ∀ x ∈ recommend_citations idx query_tokens top_k false,
        x ∈ citationBase idx query_tokens top_k := by
  have hEq : recommend_citations idx query_tokens top_k false
      = (sortDescBy (fun it : RecoItem => it.score2)
          (citationBase idx query_tokens top_k)).take top_k := rfl
  refine ⟨hEq, ?_, ?_, ?_⟩
  · rw [hEq]
    exact List.Pairwise.sublist
      (List.take_sublist top_k (sortDescBy (fun it : RecoItem => it.score2)
        (citationBase idx query_tokens top_k)))
      (sortDescBy_sorted (fun it : RecoItem => it.score2)
        (citationBase idx query_tokens top_k))
  · rw [hEq, List.length_take, sortDescBy_length]
  · intro x hx
    rw [hEq] at hx
    exact mem_sortDescBy.1 ((List.take_sublist _ _).subset hx)

/-- C2 (amended): with diversification enabled, the output of
`recommend_citations` is a subsequence of the ranked pool (no reordering, no
backfill — dropped items are simply gone), is capped at `top_k`, and never
contains a later item whose non-empty title-token set is Jaccard-similar
(`≥ 0.65`, with the 1e-9-damped union) to an earlier kept item's. -/
theorem recommend_citations_diversify_props (idx : BM25Index) (query_tokens : List String)
    (top_k : Nat) (h : 1 ≤ top_k) :
    (recommend_citations idx query_tokens top_k true).Sublist
        (citationRanked idx query_tokens top_k) ∧
      (recommend_citations idx query_tokens top_k true).length ≤ top_k ∧
      (recommend_citations idx query_tokens top_k true).Pairwise DivOk := by
  have hd : recommend_citations idx query_tokens top_k true
      = diversifyLoop top_k (citationRanked idx query_tokens top_k) [] [] := rfl
  refine ⟨?_, ?_, ?_⟩
  · obtain ⟨s, hs, hsub⟩ := diversifyLoop_decomp top_k
      (citationRanked idx query_tokens top_k) [] []
    rw [hd, hs]
    simpa using hsub
  · rw [hd]
    exact diversifyLoop_length top_k _ [] [] (by simpa using h)
  · rw [hd]
    exact diversifyLoop_pairwise top_k _ [] [] (by simp) (by simp)

/-- C3 (amended): the candidate pool of `recommend_citations` is the BM25
search capped at `top_k * 4` (not `max(30, top_k * 5)`), and an empty pool
yields an empty result rather than an error, for either diversification
setting. -/
theorem recommend_citations_pool (idx : BM25Index) (query_tokens : List String)
    (top_k : Nat) (diversify : Bool) :
    citationBase idx query_tokens top_k
        = (bm25_search idx query_tokens (top_k * 4) true).map
            (rerankItem (lowerQuerySet query_tokens)) ∧
      (bm25_search idx query_tokens (top_k * 4) true = [] →
        recommend_citations idx query_tokens top_k diversify = []) := by
  refine ⟨rfl, ?_⟩
  intro hempty
  have hbase : citationRanked idx query_tokens top_k = [] := by
    unfold citationRanked citationBase citationBaseWith
    rw [hempty]
    rfl
  unfold recommend_citations
  rw [hbase]
  cases diversify <;> simp [diversifyLoop]

/-! ### Concrete reranker inputs for the counterexamples and witnesses -/

/-- Four documents, one distinct term each, with idf 10, 4, 3, 1 and all
lengths 1, so the BM25 scores (and `score2`, there being no bonuses) are just
under 10, 4, 3, 1. -/
def cexIdxC1 : BM25Index :=
  BM25Index.mk 0 0 [] [("t1", 10), ("t2", 4), ("t3", 3), ("t4", 1)]
    [1, 1, 1, 1] 1 [("t1", [(0, 1)]), ("t2", [(1, 1)]), ("t3", [(2, 1)]), ("t4", [(3, 1)])]
    [emptyMeta, emptyMeta, emptyMeta, emptyMeta]

set_option maxHeartbeats 1600000 in
/-- C1 counterexample: the claimed automatic cutoff does not exist in the
code.  On `cexIdxC1` with query `[t1..t4]` and `top_k = 5` the pool is
non-empty and scores ≈ 10, 4, 3, 1; the claim's cutoff is
`max(0.65·10, p75) = 6.5`-ish, only one candidate passes, so the claim
predicts the fallback top `min(3, 4) = 3` items — but `recommend_citations`
returns all four. -/
theorem no_cutoff_counterexample :
    ¬ citationBase cexIdxC1 ["t1", "t2", "t3", "t4"] 5 = [] ∧
      (recommend_citations cexIdxC1 ["t1", "t2", "t3", "t4"] 5 false).map
          (fun it => it.hit.doc_idx) = [0, 1, 2, 3] ∧
      (claimC1Result cexIdxC1 ["t1", "t2", "t3", "t4"] 5).map
          (fun it => it.hit.doc_idx) = [0, 1, 2] := by
  have hl1 : lowerStr "t1" = "t1" := by decide
  have hl2 : lowerStr "t2" = "t2" := by decide
  have hl3 : lowerStr "t3" = "t3" := by decide
  have hl4 : lowerStr "t4" = "t4" := by decide
  refine ⟨?_, ?_, ?_⟩ <;>
    norm_num +decide [recommend_citations, citationRanked, citationBase, citationBaseWith,
      claimC1Result, p75, rerankItem, keyword_overlap_bonus, year_freshness_bonus,
      lowerQuerySet, bm25_search, mkHit, sparseScores, sparseTermStep, sparsePostingsStep, distinctTokens, dedupFirst, alookup, aget,
      dictSet, contribOf, sortDescBy, List.insertionSort, List.orderedInsert, eps,
      emptyMeta, cexIdxC1, isBlankId, hl1, hl2, hl3, hl4]

def metaTitleABC : Meta := Meta.mk none (some "a b c") none none none none

def metaTitleABCD : Meta := Meta.mk none (some "a b c d") none none none none

/-- Two documents on the same term (tf 2 and 1), titled "a b c" and
"a b c d": distinct titles and so distinct dedup keys, but title Jaccard
`3 / (4 + 1e-9) ≈ 0.75 ≥ 0.65`. -/
def cexIdxC2 : BM25Index :=
  BM25Index.mk 0 0 [] [("q", 1)] [2, 1] (3/2) [("q", [(0, 2), (1, 1)])]
    [metaTitleABC, metaTitleABCD]

set_option maxHeartbeats 1600000 in
/-- C2 counterexample: diversification drops by title-token Jaccard, not by
dedup-key equality, and never backfills.  On `cexIdxC2` with `top_k = 2` the
two ranked candidates have distinct dedup keys ("a b c" vs "a b c d"), so the
claim predicts both are kept (count preserved); the code returns only the
first. -/
theorem diversify_drops_distinct_keys :
    (recommend_citations cexIdxC2 ["q"] 2 true).map (fun it => it.hit.doc_idx) = [0] ∧
      (claimC2Result cexIdxC2 ["q"] 2).map (fun it => it.hit.doc_idx) = [0, 1] ∧
      (citationRanked cexIdxC2 ["q"] 2).map dedupKey = ["a b c", "a b c d"] := by
  have hq : lowerStr "q" = "q" := by decide
  have htt1 : titleTokens "a b c" = ["a", "b", "c"] := by decide
  have htt2 : titleTokens "a b c d" = ["a", "b", "c", "d"] := by decide
  refine ⟨?_, ?_, ?_⟩ <;>
    norm_num +decide [recommend_citations, citationRanked, citationBase, citationBaseWith,
      claimC2Result, claimC2Diversify, specDedup, dedupKey, rerankItem,
      keyword_overlap_bonus, year_freshness_bonus, lowerQuerySet, bm25_search, mkHit, sparseScores, sparseTermStep, sparsePostingsStep,
      distinctTokens, dedupFirst, alookup, aget, dictSet, contribOf, sortDescBy,
      List.insertionSort, List.orderedInsert, eps, emptyMeta, cexIdxC2, metaTitleABC,
      metaTitleABCD, isBlankId, diversifyLoop, itemTitleTokens, jaccardGe, hq, htt1, htt2]

/-- Witness for the C2 amended theorem at `cexIdxC2`, `top_k = 2`. -/
theorem recommend_citations_diversify_props_example :
    (recommend_citations cexIdxC2 ["q"] 2 true).length ≤ 2 :=
  (recommend_citations_diversify_props cexIdxC2 ["q"] 2 (by decide)).2.1

def metaKwZ : Meta := Meta.mk none none (some "z") none none none

/-- Five documents on term "q" with tf 6..2 (scores strictly decreasing);
the weakest, document 4, declares keyword "z", worth a 0.15 rerank bonus that
would place it first — if it got into the candidate pool. -/
def cexIdxC3 : BM25Index :=
  BM25Index.mk 0 0 [] [("q", 1)] [6, 5, 4, 3, 2] 4 [("q", [(0, 6), (1, 5), (2, 4), (3, 3), (4, 2)])]
    [emptyMeta, emptyMeta, emptyMeta, emptyMeta, metaKwZ]

set_option maxHeartbeats 1600000 in
/-- C3 counterexample: the pool cap is `top_k * 4`, not `max(30, top_k * 5)`.
With `top_k = 1` the code retrieves only the BM25 top 4, so document 4 and
its keyword bonus never enter the rerank and the result is document 0; under
the claimed `max(30, 5)`-sized pool the result would be document 4. -/
theorem candidate_pool_cap_differs :
    (recommend_citations cexIdxC3 ["q", "z"] 1 false).map (fun it => it.hit.doc_idx) = [0] ∧
      (claimC3Recommend cexIdxC3 ["q", "z"] 1 false).map (fun it => it.hit.doc_idx) = [4] := by
  have hq : lowerStr "q" = "q" := by decide
  have hz : lowerStr "z" = "z" := by decide
  have hkw : kwTokenSet "z" = ["z"] := by decide
  refine ⟨?_, ?_⟩ <;>
    norm_num +decide [recommend_citations, claimC3Recommend, citationRanked, citationBase,
      citationBaseWith, rerankItem, keyword_overlap_bonus, year_freshness_bonus,
      lowerQuerySet, bm25_search, mkHit, sparseScores, sparseTermStep, sparsePostingsStep, distinctTokens, dedupFirst, alookup, aget,
      dictSet, contribOf, sortDescBy, List.insertionSort, List.orderedInsert, eps, emptyMeta,
      metaKwZ, cexIdxC3, isBlankId, hq, hz, hkw]

/-! ## Claims C5, C6 — the supervisor recommender -/

/-- Anything the scoring loop adds comes from a profile entry that, when
anchors were selected, has positive weight on at least one anchor. -/
theorem foldl_supStep_mem (query_tokens : List String) (anchors : List String)
    (qvec : List (String × ℚ)) (qnorm : ℚ) :
    ∀ (pl : List (String × ProfileInfo)) (acc : List SupItem),
      ∀ x ∈ pl.foldl (supStep query_tokens anchors qvec qnorm) acc,
        x ∈ acc ∨ ∃ pr ∈ pl, x.dosen = pr.1 ∧
          (¬ anchors = [] → ∃ a ∈ anchors, 0 < aget a 0 pr.2.vector) := by
  intro pl
  induction pl with
  | nil => intro acc x hx; exact Or.inl hx
  | cons pr rest ih =>
    intro acc x hx
    rw [List.foldl_cons] at hx
    rcases ih (supStep query_tokens anchors qvec qnorm acc pr) x hx with hin | ⟨pr2, hpr2, hrest⟩
    · by_cases hgate : ¬ anchors = [] ∧
          ¬ anchors.any (fun a => decide (0 < aget a 0 pr.2.vector))
      · rw [supStep, if_pos hgate] at hin
        exact Or.inl hin
      · rw [supStep, if_neg hgate] at hin
        by_cases hskip : (cosineEvidence qvec qnorm pr.2.vector pr.2.norm 6).1 ≤ 0 ∧
            (pr.2.top_terms.filter (fun t => decide (t ∈ query_tokens))).take 8 = []
        · simp only [if_pos hskip] at hin
          exact Or.inl hin
        · simp only [if_neg hskip] at hin
          rcases List.mem_append.1 hin with hin2 | hone
          · exact Or.inl hin2
          · refine Or.inr ⟨pr, List.mem_cons_self _ _, ?_, ?_⟩
            · rw [List.mem_singleton.1 hone]
            · intro hanch
              rcases not_and_or.1 hgate with hc | hc
              · exact absurd hanch (not_not.1 (fun hh => hh hc))
              · obtain ⟨a, ha, hdec⟩ := List.any_eq_true.1 (not_not.1 hc)
                exact ⟨a, ha, of_decide_eq_true hdec⟩
    · exact Or.inr ⟨pr2, List.mem_cons_of_mem _ hpr2, hrest⟩

/-- Every returned supervisor is one of the scored supervisors. -/
theorem recommend_supervisors_subset_scored (logf sqrtf : ℚ → ℚ) (pobj : ProfilesObj)
    (query_tokens : List String) (top_k : Nat) (min_similarity rel_cutoff : ℚ)
    (anchor_top_n : Nat) (anchor_idf_min generic_downweight : ℚ) :
    ∀ x ∈ recommend_supervisors logf sqrtf pobj query_tokens top_k min_similarity rel_cutoff
        anchor_top_n anchor_idf_min generic_downweight,
      x ∈ scoredOf logf sqrtf pobj query_tokens anchor_top_n anchor_idf_min
        generic_downweight := by
  intro x hx
  unfold recommend_supervisors at hx
  by_cases hr : ¬ rankedSupervisors logf sqrtf pobj query_tokens anchor_top_n anchor_idf_min
      generic_downweight = []
  · rw [if_pos hr] at hx
    by_cases hf : ¬ supFiltered min_similarity rel_cutoff
        (rankedSupervisors logf sqrtf pobj query_tokens anchor_top_n anchor_idf_min
          generic_downweight) = []
    · rw [if_pos hf] at hx
      have hx2 := (List.take_sublist _ _).subset hx
      have hx3 := List.mem_of_mem_filter hx2
      exact mem_sortDescBy.1 hx3
    · rw [if_neg hf] at hx
      exact mem_sortDescBy.1 ((List.take_sublist _ _).subset hx)
  · rw [if_neg hr] at hx
    exact mem_sortDescBy.1 ((List.take_sublist _ _).subset hx)

/-- C5: whenever `recommend_supervisors` selects at least one anchor term,
every supervisor on the returned list comes from a profile entry with
positive vector weight on at least one selected anchor; a supervisor with no
anchor term in its vocabulary never appears. -/
theorem recommend_supervisors_anchor_gate (logf sqrtf : ℚ → ℚ) (pobj : ProfilesObj)
    (query_tokens : List String) (top_k : Nat) (min_similarity rel_cutoff : ℚ)
    (anchor_top_n : Nat) (anchor_idf_min generic_downweight : ℚ)
    (h : ¬ anchorsOf pobj.idf query_tokens anchor_top_n anchor_idf_min = []) :
    ∀ x ∈ recommend_supervisors logf sqrtf pobj query_tokens top_k min_similarity rel_cutoff
        anchor_top_n anchor_idf_min generic_downweight,
      ∃ pr ∈ pobj.profiles, x.dosen = pr.1 ∧
        ∃ a ∈ anchorsOf pobj.idf query_tokens anchor_top_n anchor_idf_min,
          0 < aget a 0 pr.2.vector := by
  intro x hx
  have hs := recommend_supervisors_subset_scored logf sqrtf pobj query_tokens top_k
    min_similarity rel_cutoff anchor_top_n anchor_idf_min generic_downweight x hx
  unfold scoredOf at hs
  rcases foldl_supStep_mem query_tokens _ _ _ pobj.profiles [] x hs with hin | ⟨pr, hpr, hd, hanch⟩
  · exact absurd hin (List.not_mem_nil x)
  · exact ⟨pr, hpr, hd, hanch h⟩

/-- C6 (amended): `recommend_supervisors` sorts the scored supervisors by
score descending and keeps those with `similarity ≥ max(0.08-style
min_similarity, best_similarity * rel_cutoff)`, capped at `top_k`; when the
filter empties the list it falls back to the unfiltered ranking capped at
`top_k`.  Provided `top_k ≥ 1`, the result is non-empty whenever at least one
supervisor was scored (for `top_k = 0` the cap empties it regardless). -/
theorem recommend_supervisors_cutoff_fallback (logf sqrtf : ℚ → ℚ) (pobj : ProfilesObj)
    (query_tokens : List String) (top_k : Nat) (min_similarity rel_cutoff : ℚ)
    (anchor_top_n : Nat) (anchor_idf_min generic_downweight : ℚ)
    (htop : 1 ≤ top_k)
    (hsc : ¬ scoredOf logf sqrtf pobj query_tokens anchor_top_n anchor_idf_min
      generic_downweight = []) :
    ¬ recommend_supervisors logf sqrtf pobj query_tokens top_k min_similarity rel_cutoff
        anchor_top_n anchor_idf_min generic_downweight = [] ∧
      (recommend_supervisors logf sqrtf pobj query_tokens top_k min_similarity rel_cutoff
        anchor_top_n anchor_idf_min generic_downweight).length ≤ top_k ∧
      (recommend_supervisors logf sqrtf pobj query_tokens top_k min_similarity rel_cutoff
        anchor_top_n anchor_idf_min generic_downweight).Sorted
        (fun a c => c.score ≤ a.score) ∧
      (¬ supFiltered min_similarity rel_cutoff (rankedSupervisors logf sqrtf pobj query_tokens
          anchor_top_n anchor_idf_min generic_downweight) = [] →
        ∀ x ∈ recommend_supervisors logf sqrtf pobj query_tokens top_k min_similarity
            rel_cutoff anchor_top_n anchor_idf_min generic_downweight,
          supCutoff min_similarity rel_cutoff (rankedSupervisors logf sqrtf pobj query_tokens
            anchor_top_n anchor_idf_min generic_downweight) ≤ x.similarity) ∧
      ∀ x ∈ recommend_supervisors logf sqrtf pobj query_tokens top_k min_similarity rel_cutoff
          anchor_top_n anchor_idf_min generic_downweight,
        x ∈ scoredOf logf sqrtf pobj query_tokens anchor_top_n anchor_idf_min
          generic_downweight := by
  have hrlen : (rankedSupervisors logf sqrtf pobj query_tokens anchor_top_n anchor_idf_min
      generic_downweight).length
      = (scoredOf logf sqrtf pobj query_tokens anchor_top_n anchor_idf_min
        generic_downweight).length := sortDescBy_length _ _
  have hr : ¬ rankedSupervisors logf sqrtf pobj query_tokens anchor_top_n anchor_idf_min
      generic_downweight = [] := by
    intro hnil
    rw [hnil] at hrlen
    exact hsc (List.length_eq_zero.1 hrlen.symm)
  have hsorted : (rankedSupervisors logf sqrtf pobj query_tokens anchor_top_n anchor_idf_min
      generic_downweight).Sorted (fun a c => c.score ≤ a.score) :=
    sortDescBy_sorted (fun x : SupItem => x.score) _
  have hrpos : 0 < (rankedSupervisors logf sqrtf pobj query_tokens anchor_top_n anchor_idf_min
      generic_downweight).length := List.length_pos.2 hr
  refine ⟨?_, ?_, ?_, ?_, recommend_supervisors_subset_scored logf sqrtf pobj query_tokens
    top_k min_similarity rel_cutoff anchor_top_n anchor_idf_min generic_downweight⟩
  · unfold recommend_supervisors
    rw [if_pos hr]
    by_cases hf : ¬ supFiltered min_similarity rel_cutoff (rankedSupervisors logf sqrtf pobj
        query_tokens anchor_top_n anchor_idf_min generic_downweight) = []
    · rw [if_pos hf]
      intro hnil
      have := List.length_eq_zero.2 hnil
      rw [List.length_take] at this
      have hfpos := List.length_pos.2 hf
      omega
    · rw [if_neg hf]
      intro hnil
      have := List.length_eq_zero.2 hnil
      rw [List.length_take] at this
      omega
  · unfold recommend_supervisors
    rw [if_pos hr]
    by_cases hf : ¬ supFiltered min_similarity rel_cutoff (rankedSupervisors logf sqrtf pobj
        query_tokens anchor_top_n anchor_idf_min generic_downweight) = []
    · rw [if_pos hf]
      exact List.length_take_le _ _
    · rw [if_neg hf]
      exact List.length_take_le _ _
  · unfold recommend_supervisors
    rw [if_pos hr]
    by_cases hf : ¬ supFiltered min_similarity rel_cutoff (rankedSupervisors logf sqrtf pobj
        query_tokens anchor_top_n anchor_idf_min generic_downweight) = []
    · rw [if_pos hf]
      exact List.Pairwise.sublist ((List.take_sublist _ _).trans (List.filter_sublist _))
        hsorted
    · rw [if_neg hf]
      exact List.Pairwise.sublist (List.take_sublist _ _) hsorted
  · intro hf x hx
    unfold recommend_supervisors at hx
    rw [if_pos hr, if_pos hf] at hx
    have hx2 := (List.take_sublist _ _).subset hx
    unfold supFiltered at hx2
    exact of_decide_eq_true (List.mem_filter.1 hx2).2

theorem headI_mem_of_ne {α : Type} [Inhabited α] {l : List α} (h : ¬ l = []) : l.headI ∈ l := by
  cases l with
  | nil => exact absurd rfl h
  | cons a t => exact List.mem_cons_self a t

def profA : ProfileInfo := ProfileInfo.mk [("x", 2)] 1 ["x"] [] 1

def profB : ProfileInfo := ProfileInfo.mk [("y", 2)] 1 ["y"] [] 1

def cexPobj : ProfilesObj := ProfilesObj.mk [("x", 1)] [("A", profA), ("B", profB)]

set_option maxHeartbeats 1600000 in
theorem recommend_supervisors_anchor_gate_example :
    ∃ pr ∈ cexPobj.profiles,
      (recommend_supervisors id id cexPobj ["x"] 5 (8/100) (35/100) 2 (65/100)
          (35/100)).headI.dosen = pr.1 ∧
      ∃ a ∈ anchorsOf cexPobj.idf ["x"] 2 (65/100), 0 < aget a 0 pr.2.vector := by
  have hanch : ¬ anchorsOf cexPobj.idf ["x"] 2 (65/100) = [] := by
    norm_num +decide [anchorsOf, qtfOf, dictSet, aget, alookup, sortDescBy,
      List.insertionSort, List.orderedInsert, cexPobj, GENERIC_TERMS_SUP, dedupFirst]
  have hne : ¬ recommend_supervisors id id cexPobj ["x"] 5 (8/100) (35/100) 2 (65/100)
      (35/100) = [] := by
    norm_num +decide [recommend_supervisors, rankedSupervisors, supFiltered, supCutoff,
      bestSim, scoredOf, supStep, anchorsOf, qtfOf, qvecOf, safe_log1p, cosineEvidence,
      dictSet, aget, alookup, sortDescBy, List.insertionSort, List.orderedInsert,
      cexPobj, profA, profB, GENERIC_TERMS_SUP, dedupFirst, eps]
  exact recommend_supervisors_anchor_gate id id cexPobj ["x"] 5 (8/100) (35/100) 2 (65/100)
    (35/100) hanch _ (headI_mem_of_ne hne)

def profC6 : ProfileInfo := ProfileInfo.mk [] 1 ["x"] [] 0

def cexPobjC6 : ProfilesObj := ProfilesObj.mk [] [("A", profC6)]

set_option maxHeartbeats 1600000 in
theorem top_k_zero_empty_result :
    ¬ scoredOf id id cexPobjC6 ["x"] 2 (65/100) (35/100) = [] ∧
      recommend_supervisors id id cexPobjC6 ["x"] 0 (8/100) (35/100) 2 (65/100) (35/100)
        = [] := by
  constructor <;>
    norm_num +decide [recommend_supervisors, rankedSupervisors, supFiltered, supCutoff,
      bestSim, scoredOf, supStep, anchorsOf, qtfOf, qvecOf, safe_log1p, cosineEvidence,
      dictSet, aget, alookup, sortDescBy, List.insertionSort, List.orderedInsert,
      cexPobjC6, profC6, GENERIC_TERMS_SUP, dedupFirst, eps]

set_option maxHeartbeats 1600000 in
theorem recommend_supervisors_cutoff_fallback_example :
    ¬ recommend_supervisors id id cexPobjC6 ["x"] 5 (8/100) (35/100) 2 (65/100) (35/100)
        = [] :=
  (recommend_supervisors_cutoff_fallback id id cexPobjC6 ["x"] 5 (8/100) (35/100) 2 (65/100)
    (35/100) (by decide) (by
      norm_num +decide [scoredOf, supStep, anchorsOf, qtfOf, qvecOf, safe_log1p,
        cosineEvidence, dictSet, aget, alookup, sortDescBy, List.insertionSort,
        List.orderedInsert, cexPobjC6, profC6, GENERIC_TERMS_SUP, dedupFirst, eps])).1

/-! ## Claim C7 — query expansion -/

/-- A token the expansion scan keeps: longer than 2 characters, not a query
term, not generic. -/
def keptTok (qset : List String) (t : String) : Prop :=
  ¬ (t = "" ∨ t.length ≤ 2) ∧ ¬ t ∈ qset ∧ ¬ t ∈ GENERIC_TERMS_EXP

instance (qset : List String) (t : String) : Decidable (keptTok qset t) :=
  inferInstanceAs
    (Decidable (¬ (t = "" ∨ t.length ≤ 2) ∧ ¬ t ∈ qset ∧ ¬ t ∈ GENERIC_TERMS_EXP))

/-- Tokens recorded in `seen_in_doc` were kept tokens of the document. -/
theorem scanTok_seen_sub (qset : List String) :
    ∀ (toks : List String) (tf : List (String × Nat)) (seen : List String) (t : String),
      t ∈ (toks.foldl (scanTok qset) (tf, seen)).2 →
        t ∈ seen ∨ (t ∈ toks ∧ keptTok qset t) := by
  intro toks
  induction toks with
  | nil => intro tf seen t ht; exact Or.inl ht
  | cons h rest ih =>
    intro tf seen t ht
    rw [List.foldl_cons] at ht
    by_cases h1 : h = "" ∨ h.length ≤ 2
    · rw [scanTok, if_pos h1] at ht
      rcases ih tf seen t ht with hs | ⟨hm, hk⟩
      · exact Or.inl hs
      · exact Or.inr ⟨List.mem_cons_of_mem _ hm, hk⟩
    · by_cases h2 : h ∈ qset
      · rw [scanTok, if_neg h1, if_pos h2] at ht
        rcases ih tf seen t ht with hs | ⟨hm, hk⟩
        · exact Or.inl hs
        · exact Or.inr ⟨List.mem_cons_of_mem _ hm, hk⟩
      · by_cases h3 : h ∈ GENERIC_TERMS_EXP
        · rw [scanTok, if_neg h1, if_neg h2, if_pos h3] at ht
          rcases ih tf seen t ht with hs | ⟨hm, hk⟩
          · exact Or.inl hs
          · exact Or.inr ⟨List.mem_cons_of_mem _ hm, hk⟩
        · rw [scanTok, if_neg h1, if_neg h2, if_neg h3] at ht
          rcases ih _ _ t ht with hs | ⟨hm, hk⟩
          · by_cases hh : h ∈ seen
            · rw [if_pos hh] at hs
              exact Or.inl hs
            · rw [if_neg hh] at hs
              rcases List.mem_append.1 hs with hs2 | hs2
              · exact Or.inl hs2
              · rw [List.mem_singleton.1 hs2]
                exact Or.inr ⟨List.mem_cons_self _ _, h1, h2, h3⟩
          · exact Or.inr ⟨List.mem_cons_of_mem _ hm, hk⟩

/-- `seen_in_doc` stays duplicate-free. -/
theorem scanTok_seen_nodup (qset : List String) :
    ∀ (toks : List String) (tf : List (String × Nat)) (seen : List String),
      seen.Nodup → (toks.foldl (scanTok qset) (tf, seen)).2.Nodup := by
  intro toks
  induction toks with
  | nil => intro tf seen h; exact h
  | cons h rest ih =>
    intro tf seen hnd
    rw [List.foldl_cons]
    by_cases h1 : h = "" ∨ h.length ≤ 2
    · rw [scanTok, if_pos h1]; exact ih tf seen hnd
    · by_cases h2 : h ∈ qset
      · rw [scanTok, if_neg h1, if_pos h2]; exact ih tf seen hnd
      · by_cases h3 : h ∈ GENERIC_TERMS_EXP
        · rw [scanTok, if_neg h1, if_neg h2, if_pos h3]; exact ih tf seen hnd
        · rw [scanTok, if_neg h1, if_neg h2, if_neg h3]
          by_cases hh : h ∈ seen
          · rw [if_pos hh]; exact ih _ _ hnd
          · rw [if_neg hh]
            refine ih _ _ ?_
            simp [List.nodup_append, hnd, hh]

/-- Keys of the accumulated `tf` dict come from kept tokens of the scanned
documents. -/
theorem scanTok_tf_keys (qset : List String) :
    ∀ (toks : List String) (tf : List (String × Nat)) (seen : List String) (x : String),
      x ∈ ((toks.foldl (scanTok qset) (tf, seen)).1).map Prod.fst →
        x ∈ tf.map Prod.fst ∨ (x ∈ toks ∧ keptTok qset x) := by
  intro toks
  induction toks with
  | nil => intro tf seen x hx; exact Or.inl hx
  | cons h rest ih =>
    intro tf seen x hx
    rw [List.foldl_cons] at hx
    by_cases h1 : h = "" ∨ h.length ≤ 2
    · rw [scanTok, if_pos h1] at hx
      rcases ih tf seen x hx with hs | ⟨hm, hk⟩
      · exact Or.inl hs
      · exact Or.inr ⟨List.mem_cons_of_mem _ hm, hk⟩
    · by_cases h2 : h ∈ qset
      · rw [scanTok, if_neg h1, if_pos h2] at hx
        rcases ih tf seen x hx with hs | ⟨hm, hk⟩
        · exact Or.inl hs
        · exact Or.inr ⟨List.mem_cons_of_mem _ hm, hk⟩
      · by_cases h3 : h ∈ GENERIC_TERMS_EXP
        · rw [scanTok, if_neg h1, if_neg h2, if_pos h3] at hx
          rcases ih tf seen x hx with hs | ⟨hm, hk⟩
          · exact Or.inl hs
          · exact Or.inr ⟨List.mem_cons_of_mem _ hm, hk⟩
        · rw [scanTok, if_neg h1, if_neg h2, if_neg h3] at hx
          rcases ih _ _ x hx with hs | ⟨hm, hk⟩
          · rw [dictSet_map_fst] at hs
            by_cases hhk : h ∈ tf.map Prod.fst
            · rw [if_pos hhk] at hs
              exact Or.inl hs
            · rw [if_neg hhk] at hs
              rcases List.mem_append.1 hs with hs2 | hs2
              · exact Or.inl hs2
              · rw [List.mem_singleton.1 hs2]
                exact Or.inr ⟨List.mem_cons_self _ _, h1, h2, h3⟩
          · exact Or.inr ⟨List.mem_cons_of_mem _ hm, hk⟩

/-- Bumping `df` once per element of a duplicate-free `seen_in_doc` adds
exactly one for its members. -/
theorem bump_aget :
    ∀ (seen : List String), seen.Nodup → ∀ (df : List (String × Nat)) (t : String),
      aget t 0 (seen.foldl (fun df t => dictSet t (aget t 0 df + 1) df) df)
        = aget t 0 df + (if t ∈ seen then 1 else 0) := by
  intro seen
  induction seen with
  | nil => intro _ df t; simp
  | cons h rest ih =>
    intro hnd df t
    rw [List.foldl_cons]
    have hnd2 := List.nodup_cons.1 hnd
    rw [ih hnd2.2]
    by_cases hth : t = h
    · subst hth
      have htr : ¬ t ∈ rest := hnd2.1
      rw [if_neg htr, if_pos (List.mem_cons_self _ _)]
      unfold aget
      rw [alookup_dictSet, if_pos rfl]
      simp
    · have hne : aget t 0 (dictSet h (aget h 0 df + 1) df) = aget t 0 df := by
        unfold aget
        rw [alookup_dictSet, if_neg hth]
      rw [hne]
      by_cases htr : t ∈ rest
      · rw [if_pos htr, if_pos (List.mem_cons_of_mem _ htr)]
      · have hnm : ¬ t ∈ h :: rest := by
          intro hc
          rcases List.mem_cons.1 hc with hc2 | hc2
          · exact hth hc2
          · exact htr hc2
        rw [if_neg htr, if_neg hnm]

/-- The `used` counter is the number of resolved documents scanned. -/
theorem expandScan_used (qset : List String) :
    ∀ (docs : List (List String)) (st : Nat × List (String × Nat) × List (String × Nat)),
      (docs.foldl (expandScanDoc qset) st).1 = st.1 + docs.length := by
  intro docs
  induction docs with
  | nil => intro st; simp
  | cons d rest ih =>
    intro st
    rw [List.foldl_cons, ih]
    simp [expandScanDoc]
    omega

/-- Keys of the accumulated `tf` dict over all scanned documents. -/
theorem expandScan_tf_keys (qset : List String) :
    ∀ (docs : List (List String)) (st : Nat × List (String × Nat) × List (String × Nat))
      (x : String),
      x ∈ ((docs.foldl (expandScanDoc qset) st).2.1).map Prod.fst →
        x ∈ (st.2.1).map Prod.fst ∨ ∃ d ∈ docs, x ∈ d ∧ keptTok qset x := by
  intro docs
  induction docs with
  | nil => intro st x hx; exact Or.inl hx
  | cons d rest ih =>
    intro st x hx
    rw [List.foldl_cons] at hx
    rcases ih _ x hx with hs | ⟨d2, hd2, hx2⟩
    · have hs2 : x ∈ ((d.foldl (scanTok qset) (st.2.1, [])).1).map Prod.fst := hs
      rcases scanTok_tf_keys qset d st.2.1 [] x hs2 with hs3 | ⟨hm, hk⟩
      · exact Or.inl hs3
      · exact Or.inr ⟨d, List.mem_cons_self _ _, hm, hk⟩
    · exact Or.inr ⟨d2, List.mem_cons_of_mem _ hd2, hx2⟩

/-- The accumulated `df` count of a term is at most the number of scanned
documents containing it as a kept token. -/
theorem expandScan_df_le (qset : List String) :
    ∀ (docs : List (List String)) (st : Nat × List (String × Nat) × List (String × Nat))
      (t : String),
      aget t 0 ((docs.foldl (expandScanDoc qset) st).2.2)
        ≤ aget t 0 st.2.2 + docs.countP (fun d => decide (t ∈ d ∧ keptTok qset t)) := by
  intro docs
  induction docs with
  | nil => intro st t; simp
  | cons d rest ih =>
    intro st t
    rw [List.foldl_cons, List.countP_cons]
    have hstep := ih (expandScanDoc qset st d) t
    have hseen := scanTok_seen_nodup qset d st.2.1 [] List.nodup_nil
    have hbump : aget t 0 (expandScanDoc qset st d).2.2
        = aget t 0 st.2.2 + (if t ∈ (d.foldl (scanTok qset) (st.2.1, [])).2 then 1 else 0) := by
      show aget t 0 ((d.foldl (scanTok qset) (st.2.1, [])).2.foldl
        (fun df t => dictSet t (aget t 0 df + 1) df) st.2.2) = _
      exact bump_aget _ hseen st.2.2 t
    have hite : (if t ∈ (d.foldl (scanTok qset) (st.2.1, [])).2 then 1 else 0)
        ≤ (if decide (t ∈ d ∧ keptTok qset t) = true then 1 else 0) := by
      by_cases hmem : t ∈ (d.foldl (scanTok qset) (st.2.1, [])).2
      · rcases scanTok_seen_sub qset d st.2.1 [] t hmem with hc | hc
        · exact absurd hc (List.not_mem_nil t)
        · rw [if_pos hmem, if_pos (decide_eq_true hc)]
      · rw [if_neg hmem]
        by_cases hd : decide (t ∈ d ∧ keptTok qset t) = true <;> simp [hd]
    calc aget t 0 ((rest.foldl (expandScanDoc qset) (expandScanDoc qset st d)).2.2)
        ≤ aget t 0 (expandScanDoc qset st d).2.2
            + rest.countP (fun d => decide (t ∈ d ∧ keptTok qset t)) := hstep
      _ = aget t 0 st.2.2 + (if t ∈ (d.foldl (scanTok qset) (st.2.1, [])).2 then 1 else 0)
            + rest.countP (fun d => decide (t ∈ d ∧ keptTok qset t)) := by rw [hbump]
      _ ≤ aget t 0 st.2.2 + (if decide (t ∈ d ∧ keptTok qset t) = true then 1 else 0)
            + rest.countP (fun d => decide (t ∈ d ∧ keptTok qset t)) := by omega
      _ = aget t 0 st.2.2 + (rest.countP (fun d => decide (t ∈ d ∧ keptTok qset t))
            + if decide (t ∈ d ∧ keptTok qset t) = true then 1 else 0) := by omega

/-- Everything the expansion scoring loop appends is a `tf` key that passed
the document-frequency and idf filters. -/
theorem expandStep_mem (logf : ℚ → ℚ) (df : List (String × Nat))
    (idf : Option (List (String × ℚ))) (min_df : Nat) (min_idf : ℚ) :
    ∀ (tfl : List (String × Nat)) (sc : List (String × ℚ)) (x : String × ℚ),
      x ∈ tfl.foldl (expandStep logf df idf min_df min_idf) sc →
        x ∈ sc ∨ (x.1 ∈ tfl.map Prod.fst ∧ min_df ≤ aget x.1 1 df ∧
          ∀ m, idf = some m → min_idf ≤ (if ¬ m = [] then aget x.1 0 m else 0)) := by
  intro tfl
  induction tfl with
  | nil => intro sc x hx; exact Or.inl hx
  | cons p rest ih =>
    intro sc x hx
    rw [List.foldl_cons] at hx
    rcases ih _ x hx with hs | ⟨hm, hdf, hidf⟩
    · by_cases h1 : aget p.1 1 df < min_df
      · simp only [expandStep] at hs
        rw [if_pos h1] at hs
        exact Or.inl hs
      · by_cases h2 : idf.isSome = true ∧ termIdfOf idf p.1 < min_idf
        · simp only [expandStep] at hs
          rw [if_neg h1, if_pos h2] at hs
          exact Or.inl hs
        · simp only [expandStep] at hs
          rw [if_neg h1, if_neg h2] at hs
          rcases List.mem_append.1 hs with hs2 | hs2
          · exact Or.inl hs2
          · rw [List.mem_singleton.1 hs2]
            refine Or.inr ⟨List.mem_map.2 ⟨p, List.mem_cons_self _ _, rfl⟩, ?_, ?_⟩
            · show min_df ≤ aget p.1 1 df
              omega
            · intro m hm2
              show min_idf ≤ if ¬ m = [] then aget p.1 0 m else 0
              rcases not_and_or.1 h2 with hc | hc
              · rw [hm2] at hc
                simp at hc
              · rw [hm2] at hc
                simpa [termIdfOf] using not_lt.1 hc
    · exact Or.inr ⟨List.mem_map.2 (by
        obtain ⟨q, hq, hq2⟩ := List.mem_map.1 hm
        exact ⟨q, List.mem_cons_of_mem _ hq, hq2⟩), hdf, hidf⟩

/-- C7: `expand_query_from_top_docs` returns the original query terms first,
in order, followed by at most `max_expand` new terms; every appended term is
longer than 2 characters, is not an original query term, is not generic,
occurs in at least `min_df_in_top_docs` (default 2) of the resolved top
documents and, when an idf table is supplied, carries idf at least `min_idf`
(default 0.35); with zero resolved documents the query is returned
unchanged. -/
theorem expand_query_props (logf : ℚ → ℚ) (docs_by_id : List (String × ExpDoc))
    (initial_hits : List ExpHit) (query_tokens : List String) (max_expand top_docs : Nat)
    (idf : Option (List (String × ℚ))) (min_df_in_top_docs : Nat) (min_idf : ℚ) :
    ∃ ext,
      expand_query_from_top_docs logf docs_by_id initial_hits query_tokens max_expand
          top_docs idf min_df_in_top_docs min_idf = query_tokens ++ ext ∧
      ext.length ≤ max_expand ∧
      (expandResolve docs_by_id initial_hits top_docs = [] → ext = []) ∧
      ∀ t ∈ ext,
        2 < t.length ∧ ¬ t ∈ query_tokens ∧ ¬ t ∈ GENERIC_TERMS_EXP ∧
        min_df_in_top_docs ≤ (expandResolve docs_by_id initial_hits top_docs).countP
          (fun d => decide (t ∈ d)) ∧
        ∀ m, idf = some m → min_idf ≤ (if ¬ m = [] then aget t 0 m else 0) := by
  unfold expand_query_from_top_docs
  by_cases hused : ((expandResolve docs_by_id initial_hits top_docs).foldl
      (expandScanDoc query_tokens) (0, [], [])).1 = 0
  · rw [if_pos hused]
    exact ⟨[], (List.append_nil query_tokens).symm, Nat.zero_le _, fun _ => rfl, by simp⟩
  · rw [if_neg hused]
    have hdocs : ¬ expandResolve docs_by_id initial_hits top_docs = [] := by
      intro hc
      rw [hc] at hused
      exact hused rfl
    by_cases hsc : (((expandResolve docs_by_id initial_hits top_docs).foldl
          (expandScanDoc query_tokens) (0, [], [])).2.1).foldl
        (expandStep logf ((expandResolve docs_by_id initial_hits top_docs).foldl
          (expandScanDoc query_tokens) (0, [], [])).2.2 idf min_df_in_top_docs min_idf) []
        = []
    · rw [if_pos hsc]
      exact ⟨[], (List.append_nil query_tokens).symm, Nat.zero_le _, fun _ => rfl, by simp⟩
    · rw [if_neg hsc]
      refine ⟨_, rfl, ?_, fun hc => absurd hc hdocs, ?_⟩
      · rw [List.length_map]
        exact List.length_take_le _ _
      · intro t ht
        obtain ⟨x, hx, hxt⟩ := List.mem_map.1 ht
        have hx3 := mem_sortDescBy.1 ((List.take_sublist _ _).subset hx)
        rcases expandStep_mem logf _ idf min_df_in_top_docs min_idf _ [] x hx3 with
          hnil | ⟨hkey, hdf, hidf⟩
        · exact absurd hnil (List.not_mem_nil x)
        · rcases expandScan_tf_keys query_tokens _ _ x.1 hkey with hnl | ⟨d, hd, hmem, hkept⟩
        -- keys of the empty initial tf
          · simp at hnl
          · subst hxt
            obtain ⟨hk1, hk2, hk3⟩ := hkept
            have hlen : 2 < x.1.length := by
              rcases not_or.1 hk1 with ⟨hne, hgt⟩
              omega
            refine ⟨hlen, hk2, hk3, ?_, hidf⟩
            have hpos : 0 < (expandResolve docs_by_id initial_hits top_docs).countP
                (fun d2 => decide (x.1 ∈ d2)) :=
              List.countP_pos_iff.2 ⟨d, hd, decide_eq_true hmem⟩
            cases halk : alookup x.1 (((expandResolve docs_by_id initial_hits
                top_docs).foldl (expandScanDoc query_tokens) (0, [], [])).2.2) with
            | none =>
              have h1 : aget x.1 1 (((expandResolve docs_by_id initial_hits
                  top_docs).foldl (expandScanDoc query_tokens) (0, [], [])).2.2) = 1 := by
                unfold aget
                rw [halk]
                rfl
              rw [h1] at hdf
              omega
            | some v =>
              have h1 : aget x.1 1 (((expandResolve docs_by_id initial_hits
                  top_docs).foldl (expandScanDoc query_tokens) (0, [], [])).2.2)
                  = aget x.1 0 (((expandResolve docs_by_id initial_hits
                  top_docs).foldl (expandScanDoc query_tokens) (0, [], [])).2.2) := by
                unfold aget
                rw [halk]
                rfl
              rw [h1] at hdf
              have h2 := expandScan_df_le query_tokens
                (expandResolve docs_by_id initial_hits top_docs) (0, [], []) x.1
              have h0 : aget x.1 0 (([] : List (String × Nat))) = 0 := rfl
              have h3 : (expandResolve docs_by_id initial_hits top_docs).countP
                  (fun d2 => decide (x.1 ∈ d2 ∧ keptTok query_tokens x.1))
                  ≤ (expandResolve docs_by_id initial_hits top_docs).countP
                  (fun d2 => decide (x.1 ∈ d2)) := by
                refine List.countP_mono_left ?_
                intro d2 _ hp
                exact decide_eq_true (of_decide_eq_true hp).1
              have h4 : aget x.1 0 (((expandResolve docs_by_id initial_hits
                  top_docs).foldl (expandScanDoc query_tokens) (0, [], [])).2.2)
                  ≤ (expandResolve docs_by_id initial_hits top_docs).countP
                  (fun d2 => decide (x.1 ∈ d2 ∧ keptTok query_tokens x.1)) := by
                calc aget x.1 0 (((expandResolve docs_by_id initial_hits
                    top_docs).foldl (expandScanDoc query_tokens) (0, [], [])).2.2)
                    ≤ aget x.1 0 ((0, [], []) :
                        Nat × List (String × Nat) × List (String × Nat)).2.2
                      + (expandResolve docs_by_id initial_hits top_docs).countP
                        (fun d2 => decide (x.1 ∈ d2 ∧ keptTok query_tokens x.1)) := h2
                  _ = (expandResolve docs_by_id initial_hits top_docs).countP
                        (fun d2 => decide (x.1 ∈ d2 ∧ keptTok query_tokens x.1)) := by
                      simp [aget, alookup]
              omega

/-! ## Claims C4, C10 — the BM25 scorers -/

/-- The term frequency the postings hold for `term` in document `d` (the
first postings entry for the term, then its pair for the document). -/
def entryTf (idx : BM25Index) (term : String) (d : Nat) : Option Nat :=
  match alookup term idx.postings with
  | none => none
  | some pl => (pl.find? (fun p => decide (p.1 = d))).map Prod.snd

/-- The score contribution of one query term to one document: zero when the
term has no postings entry for the document, else the shared BM25 kernel. -/
def termContrib (idx : BM25Index) (d : Nat) (term : String) : ℚ :=
  match entryTf idx term d with
  | none => 0
  | some tf => contribOf idx.k1 idx.b idx.avgdl idx.doc_len (aget term 0 idx.idf) (d, tf)

/-- Well-formedness of a built index, as the spec's data-model invariants
state: `doc_len` is per-document, postings keys are non-empty tokens, each
postings list is non-empty with one entry per document, and every referenced
document index is in range. -/
def WF (idx : BM25Index) : Prop :=
  idx.doc_len.length = idx.docs_meta.length ∧
  ∀ pr ∈ idx.postings, ¬ pr.1 = "" ∧ ¬ pr.2 = [] ∧ (pr.2.map Prod.fst).Nodup ∧
    ∀ e ∈ pr.2, e.1 < idx.docs_meta.length

instance (idx : BM25Index) : Decidable (WF idx) :=
  inferInstanceAs (Decidable (_ ∧ ∀ pr ∈ idx.postings, _ ∧ _ ∧ _ ∧ ∀ e ∈ pr.2, _))

theorem getD_set_self (l : List ℚ) (i : Nat) (v : ℚ) (h : i < l.length) :
    (l.set i v).getD i 0 = v := by
  rw [List.getD_eq_getElem?_getD, List.getElem?_set]
  simp [h]

theorem getD_set_ne (l : List ℚ) (i j : Nat) (v : ℚ) (h : ¬ i = j) :
    (l.set i v).getD j 0 = l.getD j 0 := by
  rw [List.getD_eq_getElem?_getD, List.getElem?_set, if_neg h, ← List.getD_eq_getElem?_getD]

/-- Walking one postings list adds to each document's dense score exactly the
contribution of its (unique, in-range) entry. -/
theorem postings_fold_getD (k1 b avgdl : ℚ) (doc_len : List Nat) (idfv : ℚ) :
    ∀ (pl : List (Nat × Nat)) (scores : List ℚ),
      (pl.map Prod.fst).Nodup → (∀ e ∈ pl, e.1 < scores.length) →
      ((pl.foldl (termPostingsStep k1 b avgdl doc_len idfv) scores).length = scores.length ∧
       ∀ d, d < scores.length →
         (pl.foldl (termPostingsStep k1 b avgdl doc_len idfv) scores).getD d 0
           = scores.getD d 0 +
             (match pl.find? (fun p => decide (p.1 = d)) with
              | some p => contribOf k1 b avgdl doc_len idfv p
              | none => 0)) := by
  intro pl
  induction pl with
  | nil =>
    intro scores _ _
    exact ⟨rfl, fun d _ => by simp⟩
  | cons e rest ih =>
    intro scores hnd hbound
    rw [List.map_cons, List.nodup_cons] at hnd
    have hset : (termPostingsStep k1 b avgdl doc_len idfv scores e).length
        = scores.length := List.length_set _ _ _
    have hbound2 : ∀ e2 ∈ rest, e2.1 < (termPostingsStep k1 b avgdl doc_len idfv scores e).length := by
      intro e2 he2
      rw [hset]
      exact hbound e2 (List.mem_cons_of_mem _ he2)
    obtain ⟨ihlen, ihval⟩ := ih (termPostingsStep k1 b avgdl doc_len idfv scores e)
      hnd.2 hbound2
    rw [List.foldl_cons]
    constructor
    · rw [ihlen, hset]
    · intro d hd
      rw [ihval d (by rw [hset]; exact hd)]
      by_cases hde : e.1 = d
      · subst hde
        have hfr : rest.find? (fun p => decide (p.1 = e.1)) = none := by
          rw [List.find?_eq_none]
          intro p hp hdec
          have hp1 : p.1 = e.1 := of_decide_eq_true hdec
          exact hnd.1 (hp1 ▸ List.mem_map.2 ⟨p, hp, rfl⟩)
        have hfind : (e :: rest).find? (fun p => decide (p.1 = e.1)) = some e := by
          rw [List.find?_cons]
          simp
        rw [hfr, hfind]
        show (termPostingsStep k1 b avgdl doc_len idfv scores e).getD e.1 0 + 0
          = scores.getD e.1 0 + contribOf k1 b avgdl doc_len idfv e
        rw [add_zero, termPostingsStep]
        exact getD_set_self _ _ _ (hbound e (List.mem_cons_self _ _))
      · have hfind : (e :: rest).find? (fun p => decide (p.1 = d)) =
            rest.find? (fun p => decide (p.1 = d)) := by
          rw [List.find?_cons]
          simp [hde]
        have hset2 : (termPostingsStep k1 b avgdl doc_len idfv scores e).getD d 0
            = scores.getD d 0 := by
          rw [termPostingsStep]
          exact getD_set_ne _ _ _ _ hde
        rw [hfind, hset2]

theorem getD_replicate_zero (n d : Nat) : (List.replicate n (0 : ℚ)).getD d 0 = 0 := by
  rw [List.getD_eq_getElem?_getD]
  rcases h : (List.replicate n (0 : ℚ))[d]? with _ | v
  · rfl
  · rw [List.eq_of_mem_replicate (List.getElem?_mem h)]
    rfl

/-- One dense query-term step preserves the score-table length and adds
exactly `termContrib` to each in-range document's score. -/
theorem denseTermStep_getD (idx : BM25Index) (hWF : WF idx)
    (scores : List ℚ) (hlen : scores.length = idx.docs_meta.length) (term : String) :
    (denseTermStep idx scores term).length = scores.length ∧
    ∀ d, d < scores.length →
      (denseTermStep idx scores term).getD d 0
        = scores.getD d 0 + termContrib idx d term := by
  cases hpl : alookup term idx.postings with
  | none =>
    have h1 : denseTermStep idx scores term = scores := by
      simp only [denseTermStep, hpl]
    have h2 : ∀ d, termContrib idx d term = 0 := by
      intro d
      simp [termContrib, entryTf, hpl]
    rw [h1]
    exact ⟨rfl, fun d _ => by rw [h2 d, add_zero]⟩
  | some plist =>
    obtain ⟨-, hne, hnd, hb⟩ := hWF.2 (term, plist) (alookup_mem hpl)
    have h1 : denseTermStep idx scores term
        = plist.foldl (termPostingsStep idx.k1 idx.b idx.avgdl idx.doc_len
            (aget term 0 idx.idf)) scores := by
      simp only [denseTermStep, hpl, if_neg hne]
    have hbound : ∀ e ∈ plist, e.1 < scores.length := by
      intro e he
      rw [hlen]
      exact hb e he
    obtain ⟨hl, hv⟩ := postings_fold_getD idx.k1 idx.b idx.avgdl idx.doc_len
      (aget term 0 idx.idf) plist scores hnd hbound
    rw [h1]
    refine ⟨hl, fun d hd => ?_⟩
    have hterm : termContrib idx d term
        = (match plist.find? (fun p => decide (p.1 = d)) with
           | some p => contribOf idx.k1 idx.b idx.avgdl idx.doc_len (aget term 0 idx.idf) p
           | none => 0) := by
      cases hf : plist.find? (fun p => decide (p.1 = d)) with
      | none => simp [termContrib, entryTf, hpl, hf]
      | some p =>
        obtain ⟨p1, p2⟩ := p
        have hp1 : p1 = d := by
          have hp := List.find?_some hf
          simpa using hp
        subst hp1
        simp [termContrib, entryTf, hpl, hf]
    rw [hv d hd, hterm]

/-- Folding the dense per-term step over a token list adds the sum of the
per-term contributions to each in-range document's score. -/
theorem dense_fold_getD (idx : BM25Index) (hWF : WF idx) :
    ∀ (l : List String) (scores : List ℚ), scores.length = idx.docs_meta.length →
      ((l.foldl (denseTermStep idx) scores).length = scores.length ∧
       ∀ d, d < scores.length →
         (l.foldl (denseTermStep idx) scores).getD d 0
           = scores.getD d 0 + (l.map (termContrib idx d)).sum) := by
  intro l
  induction l with
  | nil =>
    intro scores _
    exact ⟨rfl, fun d _ => by simp⟩
  | cons t rest ih =>
    intro scores hlen
    obtain ⟨hl1, hv1⟩ := denseTermStep_getD idx hWF scores hlen t
    have hlen2 : (denseTermStep idx scores t).length = idx.docs_meta.length := by
      rw [hl1, hlen]
    obtain ⟨hl2, hv2⟩ := ih (denseTermStep idx scores t) hlen2
    rw [List.foldl_cons]
    refine ⟨by rw [hl2, hl1], fun d hd => ?_⟩
    rw [hv2 d (by rw [hl1]; exact hd), hv1 d hd, List.map_cons, List.sum_cons]
    ring

/-- `get_scores` computes, for each in-range document, the sum of the
per-term contributions over the distinct non-empty query tokens. -/
theorem get_scores_getD (idx : BM25Index) (hWF : WF idx) (query_tokens : List String) :
    (get_scores idx query_tokens).length = idx.docs_meta.length ∧
    ∀ d, d < idx.docs_meta.length →
      (get_scores idx query_tokens).getD d 0
        = ((distinctTokens query_tokens).map (termContrib idx d)).sum := by
  by_cases hg : idx.docs_meta.length = 0 ∨ query_tokens = []
  · have h1 : get_scores idx query_tokens = List.replicate idx.docs_meta.length 0 := by
      simp only [get_scores, if_pos hg]
    rw [h1]
    refine ⟨List.length_replicate _ _, fun d hd => ?_⟩
    rcases hg with h0 | h0
    · omega
    · subst h0
      rw [getD_replicate_zero]
      simp [distinctTokens, dedupFirst]
  · have h1 : get_scores idx query_tokens
        = (distinctTokens query_tokens).foldl (denseTermStep idx)
            (List.replicate idx.docs_meta.length 0) := by
      simp only [get_scores, if_neg hg]
    obtain ⟨hl, hv⟩ := dense_fold_getD idx hWF (distinctTokens query_tokens)
      (List.replicate idx.docs_meta.length 0) (List.length_replicate _ _)
    rw [h1]
    refine ⟨by rw [hl, List.length_replicate], fun d hd => ?_⟩
    rw [hv d (by rw [List.length_replicate]; exact hd), getD_replicate_zero, zero_add]

theorem dedupFirst_append_mem {α : Type} [DecidableEq α] {x : α} {l : List α}
    (h : x ∈ l) : dedupFirst (l ++ [x]) = dedupFirst l := by
  rw [dedupFirst, List.foldl_append]
  show (if x ∈ dedupFirst l then dedupFirst l else dedupFirst l ++ [x]) = dedupFirst l
  rw [if_pos (mem_dedupFirst.2 h)]

theorem distinctTokens_append_mem {t : String} {q : List String} (h : t ∈ q) :
    distinctTokens (q ++ [t]) = distinctTokens q := by
  rw [distinctTokens, distinctTokens, List.filter_append]
  by_cases ht : t = ""
  · subst ht
    simp
  · have hf : List.filter (fun s => decide ¬ s = "") [t] = [t] := by
      simp [ht]
    rw [hf]
    exact dedupFirst_append_mem (List.mem_filter.2 ⟨h, by simp [ht]⟩)

/-- Appending a repeated query token never changes the dense score table. -/
theorem get_scores_append_mem (idx : BM25Index) {t : String} {q : List String}
    (h : t ∈ q) : get_scores idx (q ++ [t]) = get_scores idx q := by
  have hq : ¬ q = [] := by
    intro hq
    subst hq
    simp at h
  by_cases hN : idx.docs_meta.length = 0
  · simp only [get_scores, if_pos (Or.inl hN)]
  · have hg1 : ¬ (idx.docs_meta.length = 0 ∨ q ++ [t] = []) := by
      simp [hN]
    have hg2 : ¬ (idx.docs_meta.length = 0 ∨ q = []) := by
      simp [hN, hq]
    simp only [get_scores, if_neg hg1, if_neg hg2, distinctTokens_append_mem h]

/-- Modelled from the spec (claim C4): the per-term score contribution with
no `1e-9` smoothing anywhere — `idf * (tf * (k1 + 1)) /
(tf + k1 * (1 - b + b * doc_len[d] / avgdl))`, and zero for a term with no
postings entry for the document. -/
def claimC4Contrib (idx : BM25Index) (d : Nat) (term : String) : ℚ :=
  match entryTf idx term d with
  | none => 0
  | some tf =>
    aget term 0 idx.idf * ((tf : ℚ) * (idx.k1 + 1) /
      ((tf : ℚ) + idx.k1 * (1 - idx.b + idx.b * ((idx.doc_len.getD d 0 : Nat) : ℚ) / idx.avgdl)))

/-- Modelled from the spec (claim C4): the claimed BM25 score of document
`d` — the sum of the guard-free per-term contributions over the distinct
query terms. -/
def claimC4Score (idx : BM25Index) (d : Nat) (query_tokens : List String) : ℚ :=
  ((distinctTokens query_tokens).map (claimC4Contrib idx d)).sum

/-- A one-document, one-term well-formed index on which the `1e-9` guards
of the implemented scorer are visible. -/
def cexIdxC4 : BM25Index :=
  BM25Index.mk (3/2) (3/4) [("a", 1)] [("a", 1)] [1] 1 [("a", [(0, 1)])] [emptyMeta]

set_option maxHeartbeats 1600000 in
/-- Counterexample to claim C4: on `cexIdxC4` with query `["a"]` the
implemented score of document 0 differs from the claimed guard-free
formula, because the code divides by `avgdl + 1e-9` and `denom + 1e-9`
rather than by `avgdl` and `denom`. -/
theorem bm25_eps_guards_shift_score :
    ¬ (get_scores cexIdxC4 ["a"]).getD 0 0 = claimC4Score cexIdxC4 0 ["a"] := by
  norm_num +decide [get_scores, denseTermStep, termPostingsStep, contribOf, claimC4Score,
    claimC4Contrib, entryTf, termContrib, distinctTokens, dedupFirst, alookup, aget,
    eps, cexIdxC4, emptyMeta]

/-- Claim C4 (amended): for every well-formed index, the implemented BM25
score of an in-range document is the sum over the distinct non-empty query
tokens of the per-term contribution `idf * (tf * (k1 + 1)) /
(tf + k1 * (1 - b + b * doc_len[d] / (avgdl + 1e-9)) + 1e-9)`; a term with
no postings entry for the document contributes exactly zero, and appending
a repeated query term changes no document's score. -/
theorem bm25_score_decomposition (idx : BM25Index) (hWF : WF idx)
    (query_tokens : List String) (d : Nat) (hd : d < idx.docs_meta.length) :
    (get_scores idx query_tokens).getD d 0
      = ((distinctTokens query_tokens).map (termContrib idx d)).sum ∧
    (∀ t, entryTf idx t d = none → termContrib idx d t = 0) ∧
    (∀ t ∈ query_tokens, get_scores idx (query_tokens ++ [t]) = get_scores idx query_tokens) := by
  refine ⟨(get_scores_getD idx hWF query_tokens).2 d hd, fun t ht => ?_, fun t ht => ?_⟩
  · simp [termContrib, ht]
  · exact get_scores_append_mem idx ht

theorem bm25_score_decomposition_example :
    WF cexIdxC4 ∧ 0 < cexIdxC4.docs_meta.length ∧
    ((get_scores cexIdxC4 ["a"]).getD 0 0
        = ((distinctTokens ["a"]).map (termContrib cexIdxC4 0)).sum ∧
     (∀ t, entryTf cexIdxC4 t 0 = none → termContrib cexIdxC4 0 t = 0) ∧
     (∀ t ∈ ["a"], get_scores cexIdxC4 (["a"] ++ [t]) = get_scores cexIdxC4 ["a"])) :=
  ⟨by decide, by decide, bm25_score_decomposition cexIdxC4 (by decide) ["a"] 0 (by decide)⟩

/-- Walking one postings list updates the sparse score dict exactly at the
documents the list mentions, and preserves key distinctness. -/
theorem sparse_postings_fold (k1 b avgdl : ℚ) (doc_len : List Nat) (idfv : ℚ) :
    ∀ (pl : List (Nat × Nat)) (sc : List (Nat × ℚ)),
      (pl.map Prod.fst).Nodup →
      ((∀ d, alookup d (pl.foldl (sparsePostingsStep k1 b avgdl doc_len idfv) sc)
          = match pl.find? (fun p => decide (p.1 = d)) with
            | some p => some (aget d 0 sc + contribOf k1 b avgdl doc_len idfv p)
            | none => alookup d sc) ∧
       ((sc.map Prod.fst).Nodup →
         ((pl.foldl (sparsePostingsStep k1 b avgdl doc_len idfv) sc).map Prod.fst).Nodup)) := by
  intro pl
  induction pl with
  | nil =>
    intro sc _
    exact ⟨fun d => rfl, fun h => h⟩
  | cons e rest ih =>
    intro sc hnd
    rw [List.map_cons, List.nodup_cons] at hnd
    obtain ⟨ihv, ihnd⟩ := ih (sparsePostingsStep k1 b avgdl doc_len idfv sc e) hnd.2
    rw [List.foldl_cons]
    constructor
    · intro d
      rw [ihv d]
      by_cases hde : e.1 = d
      · subst hde
        have hfr : rest.find? (fun p => decide (p.1 = e.1)) = none := by
          rw [List.find?_eq_none]
          intro p hp hdec
          have hp1 : p.1 = e.1 := of_decide_eq_true hdec
          exact hnd.1 (hp1 ▸ List.mem_map.2 ⟨p, hp, rfl⟩)
        have hfind : (e :: rest).find? (fun p => decide (p.1 = e.1)) = some e := by
          rw [List.find?_cons]
          simp
        rw [hfr, hfind]
        show alookup e.1 (sparsePostingsStep k1 b avgdl doc_len idfv sc e)
          = some (aget e.1 0 sc + contribOf k1 b avgdl doc_len idfv e)
        rw [sparsePostingsStep, alookup_dictSet, if_pos rfl]
      · have hfind : (e :: rest).find? (fun p => decide (p.1 = d)) =
            rest.find? (fun p => decide (p.1 = d)) := by
          rw [List.find?_cons]
          simp [hde]
        have hdne : ¬ d = e.1 := fun h => hde h.symm
        have hsk : alookup d (sparsePostingsStep k1 b avgdl doc_len idfv sc e)
            = alookup d sc := by
          rw [sparsePostingsStep, alookup_dictSet, if_neg hdne]
        have hga : aget d 0 (sparsePostingsStep k1 b avgdl doc_len idfv sc e)
            = aget d 0 sc := by
          rw [aget, aget, hsk]
        rw [hfind]
        cases hf : rest.find? (fun p => decide (p.1 = d)) with
        | none =>
          show alookup d (sparsePostingsStep k1 b avgdl doc_len idfv sc e) = alookup d sc
          exact hsk
        | some p =>
          show some (aget d 0 (sparsePostingsStep k1 b avgdl doc_len idfv sc e)
              + contribOf k1 b avgdl doc_len idfv p)
            = some (aget d 0 sc + contribOf k1 b avgdl doc_len idfv p)
          rw [hga]
    · intro hnds
      refine ihnd ?_
      rw [sparsePostingsStep]
      exact dictSet_nodup _ _ hnds

/-- Under well-formedness, a postings entry points at an in-range document. -/
theorem entryTf_lt (idx : BM25Index) (hWF : WF idx) {t : String} {d : Nat}
    (h : (entryTf idx t d).isSome = true) : d < idx.docs_meta.length := by
  cases hpl : alookup t idx.postings with
  | none => simp [entryTf, hpl] at h
  | some pl =>
    simp only [entryTf, hpl] at h
    cases hf : pl.find? (fun p => decide (p.1 = d)) with
    | none => rw [hf] at h; simp at h
    | some p =>
      have hp1 : p.1 = d := by
        have hp := List.find?_some hf
        simpa using hp
      have hmem : p ∈ pl := List.mem_of_find?_eq_some hf
      have := (hWF.2 (t, pl) (alookup_mem hpl)).2.2.2 p hmem
      omega

/-- Under well-formedness, the empty token has no postings entry. -/
theorem entryTf_empty (idx : BM25Index) (hWF : WF idx) (d : Nat) :
    entryTf idx "" d = none := by
  rw [entryTf]
  cases hpl : alookup "" idx.postings with
  | none => rfl
  | some pl => exact absurd rfl (hWF.2 ("", pl) (alookup_mem hpl)).1

/-- One sparse query-term step: the dict gains `termContrib` at exactly the
documents with a postings entry for the term, and keeps its keys distinct. -/
theorem sparseTermStep_alookup (idx : BM25Index) (hWF : WF idx)
    (sc : List (Nat × ℚ)) (term : String) :
    (∀ d, alookup d (sparseTermStep idx sc term)
       = match entryTf idx term d with
         | some _ => some (aget d 0 sc + termContrib idx d term)
         | none => alookup d sc) ∧
    ((sc.map Prod.fst).Nodup → ((sparseTermStep idx sc term).map Prod.fst).Nodup) := by
  cases hpl : alookup term idx.postings with
  | none =>
    have h1 : sparseTermStep idx sc term = sc := by
      simp only [sparseTermStep, hpl]
    rw [h1]
    refine ⟨fun d => ?_, fun h => h⟩
    simp [entryTf, hpl]
  | some plist =>
    obtain ⟨-, hne, hnd, -⟩ := hWF.2 (term, plist) (alookup_mem hpl)
    have h1 : sparseTermStep idx sc term
        = plist.foldl (sparsePostingsStep idx.k1 idx.b idx.avgdl idx.doc_len
            (aget term 0 idx.idf)) sc := by
      simp only [sparseTermStep, hpl, if_neg hne]
    obtain ⟨hv, hnds⟩ := sparse_postings_fold idx.k1 idx.b idx.avgdl idx.doc_len
      (aget term 0 idx.idf) plist sc hnd
    rw [h1]
    refine ⟨fun d => ?_, hnds⟩
    rw [hv d]
    cases hf : plist.find? (fun p => decide (p.1 = d)) with
    | none =>
      have he : entryTf idx term d = none := by
        simp [entryTf, hpl, hf]
      rw [he]
    | some p =>
      obtain ⟨p1, p2⟩ := p
      have hp1 : p1 = d := by
        have hp := List.find?_some hf
        simpa using hp
      subst hp1
      have he : entryTf idx term p1 = some p2 := by
        simp [entryTf, hpl, hf]
      have ht : termContrib idx p1 term
          = contribOf idx.k1 idx.b idx.avgdl idx.doc_len (aget term 0 idx.idf) (p1, p2) := by
        simp [termContrib, he]
      rw [he, ht]

/-- A document is a key of the stepped sparse dict iff it was one before or
the term has a postings entry for it. -/
theorem sparseTermStep_mem (idx : BM25Index) (hWF : WF idx)
    (sc : List (Nat × ℚ)) (term : String) (d : Nat) :
    d ∈ (sparseTermStep idx sc term).map Prod.fst ↔
      d ∈ sc.map Prod.fst ∨ (entryTf idx term d).isSome = true := by
  rw [← alookup_isSome_iff d (sparseTermStep idx sc term), ← alookup_isSome_iff d sc,
    (sparseTermStep_alookup idx hWF sc term).1 d]
  cases he : entryTf idx term d with
  | none => simp
  | some tf => simp

/-- Folding the sparse per-term step mirrors the dense fold: keys stay
distinct and in range, a present key holds exactly the dense score, an
absent in-range key has dense score zero, and the keys are exactly the
documents some token of the list matches. -/
theorem sparse_dense_fold (idx : BM25Index) (hWF : WF idx) :
    ∀ (l : List String) (sc : List (Nat × ℚ)) (scores : List ℚ),
      scores.length = idx.docs_meta.length →
      (sc.map Prod.fst).Nodup →
      (∀ d ∈ sc.map Prod.fst, d < idx.docs_meta.length) →
      (∀ d, d < idx.docs_meta.length →
        match alookup d sc with
        | some v => v = scores.getD d 0
        | none => scores.getD d 0 = 0) →
      (((l.foldl (sparseTermStep idx) sc).map Prod.fst).Nodup ∧
       (∀ d ∈ (l.foldl (sparseTermStep idx) sc).map Prod.fst, d < idx.docs_meta.length) ∧
       (∀ d, d < idx.docs_meta.length →
         match alookup d (l.foldl (sparseTermStep idx) sc) with
         | some v => v = (l.foldl (denseTermStep idx) scores).getD d 0
         | none => (l.foldl (denseTermStep idx) scores).getD d 0 = 0) ∧
       (∀ d, d ∈ (l.foldl (sparseTermStep idx) sc).map Prod.fst ↔
         (d ∈ sc.map Prod.fst ∨ ∃ t ∈ l, (entryTf idx t d).isSome = true))) := by
  intro l
  induction l with
  | nil =>
    intro sc scores hlen hnd hrange hval
    refine ⟨hnd, hrange, hval, fun d => ?_⟩
    simp
  | cons t rest ih =>
    intro sc scores hlen hnd hrange hval
    obtain ⟨hstep, hstepnd⟩ := sparseTermStep_alookup idx hWF sc t
    obtain ⟨hdl, hdv⟩ := denseTermStep_getD idx hWF scores hlen t
    rw [List.foldl_cons, List.foldl_cons]
    have hlen1 : (denseTermStep idx scores t).length = idx.docs_meta.length := by
      rw [hdl, hlen]
    have hnd1 : ((sparseTermStep idx sc t).map Prod.fst).Nodup := hstepnd hnd
    have hrange1 : ∀ d ∈ (sparseTermStep idx sc t).map Prod.fst,
        d < idx.docs_meta.length := by
      intro d hd
      rcases (sparseTermStep_mem idx hWF sc t d).1 hd with h | h
      · exact hrange d h
      · exact entryTf_lt idx hWF h
    have hval1 : ∀ d, d < idx.docs_meta.length →
        match alookup d (sparseTermStep idx sc t) with
        | some v => v = (denseTermStep idx scores t).getD d 0
        | none => (denseTermStep idx scores t).getD d 0 = 0 := by
      intro d hd
      have hdv2 := hdv d (by rw [hlen]; exact hd)
      have hold := hval d hd
      rw [hstep d]
      cases he : entryTf idx t d with
      | none =>
        have htc : termContrib idx d t = 0 := by
          simp [termContrib, he]
        cases ha : alookup d sc with
        | some v =>
          rw [ha] at hold
          show v = (denseTermStep idx scores t).getD d 0
          rw [hdv2, htc, add_zero]
          exact hold
        | none =>
          rw [ha] at hold
          show (denseTermStep idx scores t).getD d 0 = 0
          rw [hdv2, htc, add_zero]
          exact hold
      | some tf =>
        show aget d 0 sc + termContrib idx d t = (denseTermStep idx scores t).getD d 0
        have hag : aget d 0 sc = scores.getD d 0 := by
          cases ha : alookup d sc with
          | some v =>
            rw [ha] at hold
            rw [aget, ha]
            exact hold
          | none =>
            rw [ha] at hold
            rw [aget, ha]
            exact hold.symm
        rw [hag, hdv2]
    obtain ⟨a1, a2, a3, a4⟩ := ih (sparseTermStep idx sc t) (denseTermStep idx scores t)
      hlen1 hnd1 hrange1 hval1
    refine ⟨a1, a2, a3, fun d => ?_⟩
    rw [a4 d, sparseTermStep_mem idx hWF sc t d]
    constructor
    · rintro ((h | h) | ⟨t2, ht2, he⟩)
      · exact Or.inl h
      · exact Or.inr ⟨t, List.mem_cons_self _ _, h⟩
      · exact Or.inr ⟨t2, List.mem_cons_of_mem _ ht2, he⟩
    · rintro (h | ⟨t2, ht2, he⟩)
      · exact Or.inl (Or.inl h)
      · rcases List.mem_cons.1 ht2 with rfl | ht3
        · exact Or.inl (Or.inr he)
        · exact Or.inr ⟨t2, ht3, he⟩

/-- Bridging the matched-document set from the distinct non-empty tokens to
the raw query tokens (the empty token never matches a well-formed index). -/
theorem matched_distinct_iff (idx : BM25Index) (hWF : WF idx)
    (q : List String) (d : Nat) :
    (∃ t ∈ distinctTokens q, (entryTf idx t d).isSome = true) ↔
      ∃ t ∈ q, (entryTf idx t d).isSome = true := by
  constructor
  · rintro ⟨t, ht, he⟩
    refine ⟨t, ?_, he⟩
    have ht2 : t ∈ q.filter (fun s => decide ¬ s = "") := mem_dedupFirst.1 ht
    exact (List.mem_filter.1 ht2).1
  · rintro ⟨t, ht, he⟩
    refine ⟨t, ?_, he⟩
    have hne : ¬ t = "" := by
      intro h
      subst h
      rw [entryTf_empty idx hWF d] at he
      simp at he
    exact mem_dedupFirst.2 (List.mem_filter.2 ⟨ht, by simp [hne]⟩)

theorem mkHit_fields (idx : BM25Index) (im : Bool) (p : Nat × ℚ) :
    (mkHit idx im p).doc_idx = p.1 ∧ (mkHit idx im p).score = p.2 :=
  ⟨rfl, rfl⟩

/-- Claim C10: every hit of the sparse `bm25_search` carries exactly the
dense `get_scores` score of its document; the sparse score dict has one
entry per matched document, its keys being exactly the documents with a
postings entry for some query term; and when `top_k` is at least the number
of matched documents, the returned hits cover exactly the matched set. -/
theorem bm25_search_refines_get_scores (idx : BM25Index) (hWF : WF idx)
    (query_tokens : List String) (top_k : Nat) (include_meta : Bool) :
    (∀ h ∈ bm25_search idx query_tokens top_k include_meta,
        h.score = (get_scores idx query_tokens).getD h.doc_idx 0) ∧
    (((sparseScores idx query_tokens).map Prod.fst).Nodup ∧
     ∀ d, d ∈ (sparseScores idx query_tokens).map Prod.fst ↔
        ∃ t ∈ query_tokens, (entryTf idx t d).isSome = true) ∧
    ((sparseScores idx query_tokens).length ≤ top_k →
      ∀ d, (∃ h ∈ bm25_search idx query_tokens top_k include_meta, h.doc_idx = d) ↔
        ∃ t ∈ query_tokens, (entryTf idx t d).isSome = true) := by
  obtain ⟨hnd, hrange, hval, hmem⟩ := sparse_dense_fold idx hWF (distinctTokens query_tokens)
    [] (List.replicate idx.docs_meta.length 0) (List.length_replicate _ _)
    (by simp) (by simp)
    (fun d hd => show (List.replicate idx.docs_meta.length (0 : ℚ)).getD d 0 = 0 from
      getD_replicate_zero _ _)
  have hkeys : ∀ d, d ∈ (sparseScores idx query_tokens).map Prod.fst ↔
      ∃ t ∈ query_tokens, (entryTf idx t d).isSome = true := by
    intro d
    rw [show sparseScores idx query_tokens
        = (distinctTokens query_tokens).foldl (sparseTermStep idx) [] from rfl, hmem d]
    simp only [List.map_nil, List.not_mem_nil, false_or]
    exact matched_distinct_iff idx hWF query_tokens d
  by_cases hq : query_tokens = []
  · subst hq
    have hbs : bm25_search idx [] top_k include_meta = [] := by
      simp [bm25_search]
    refine ⟨fun h hh => ?_, ⟨hnd, hkeys⟩, fun hlen d => ?_⟩
    · rw [hbs] at hh
      simp at hh
    · rw [hbs]
      simp
  · have hbs : bm25_search idx query_tokens top_k include_meta
        = if sparseScores idx query_tokens = [] then []
          else ((sortDescBy (fun p : Nat × ℚ => p.2)
              (sparseScores idx query_tokens)).take top_k).map (mkHit idx include_meta) := by
      simp only [bm25_search, if_neg hq]
    by_cases hsc : sparseScores idx query_tokens = []
    · rw [if_pos hsc] at hbs
      refine ⟨fun h hh => ?_, ⟨hnd, hkeys⟩, fun hlen d => ?_⟩
      · rw [hbs] at hh
        simp at hh
      · rw [hbs]
        constructor
        · rintro ⟨h, hh, -⟩
          simp at hh
        · intro hx
          have := (hkeys d).2 hx
          rw [hsc] at this
          simp at this
    · rw [if_neg hsc] at hbs
      have hperm : (sortDescBy (fun p : Nat × ℚ => p.2)
          (sparseScores idx query_tokens)).Perm (sparseScores idx query_tokens) :=
        List.perm_insertionSort _ _
      have hscore : ∀ p : Nat × ℚ, p ∈ sparseScores idx query_tokens →
          p.2 = (get_scores idx query_tokens).getD p.1 0 := by
        intro p hps
        have hpk : p.1 ∈ (sparseScores idx query_tokens).map Prod.fst :=
          List.mem_map.2 ⟨p, hps, rfl⟩
        have hplt : p.1 < idx.docs_meta.length := hrange p.1 hpk
        have hal : alookup p.1 ((distinctTokens query_tokens).foldl (sparseTermStep idx) [])
            = some p.2 := alookup_of_mem_nodup hnd hps
        have hv := hval p.1 hplt
        rw [hal] at hv
        have hN : ¬ idx.docs_meta.length = 0 := by omega
        have hgs : get_scores idx query_tokens
            = (distinctTokens query_tokens).foldl (denseTermStep idx)
                (List.replicate idx.docs_meta.length 0) := by
          simp only [get_scores, if_neg (by simp [hN, hq] :
            ¬ (idx.docs_meta.length = 0 ∨ query_tokens = []))]
        rw [hgs]
        exact hv
      refine ⟨fun h hh => ?_, ⟨hnd, hkeys⟩, fun hlen d => ?_⟩
      · rw [hbs] at hh
        obtain ⟨p, hp, rfl⟩ := List.mem_map.1 hh
        have hps : p ∈ sparseScores idx query_tokens :=
          hperm.subset ((List.take_sublist _ _).subset hp)
        rw [(mkHit_fields idx include_meta p).1, (mkHit_fields idx include_meta p).2]
        exact hscore p hps
      · have hlensort : (sortDescBy (fun p : Nat × ℚ => p.2)
            (sparseScores idx query_tokens)).length
            = (sparseScores idx query_tokens).length := hperm.length_eq
        have htake : (sortDescBy (fun p : Nat × ℚ => p.2)
            (sparseScores idx query_tokens)).take top_k
            = sortDescBy (fun p : Nat × ℚ => p.2) (sparseScores idx query_tokens) :=
          List.take_of_length_le (by rw [hlensort]; exact hlen)
        rw [hbs, htake, ← hkeys d]
        constructor
        · rintro ⟨h, hh, hdx⟩
          obtain ⟨p, hp, rfl⟩ := List.mem_map.1 hh
          have hps : p ∈ sparseScores idx query_tokens := hperm.subset hp
          rw [(mkHit_fields idx include_meta p).1] at hdx
          exact hdx ▸ List.mem_map.2 ⟨p, hps, rfl⟩
        · intro hx
          obtain ⟨p, hps, hpd⟩ := List.mem_map.1 hx
          refine ⟨mkHit idx include_meta p, List.mem_map.2 ⟨p, hperm.mem_iff.2 hps, rfl⟩, ?_⟩
          rw [(mkHit_fields idx include_meta p).1]
          exact hpd

/-- A two-document, two-term well-formed index exercising the search. -/
def cexIdxC10 : BM25Index :=
  BM25Index.mk (3/2) (3/4) [("a", 2), ("b", 1)] [("a", 1/2), ("b", 1)] [2, 1] (3/2)
    [("a", [(0, 2), (1, 1)]), ("b", [(0, 1)])] [emptyMeta, emptyMeta]

theorem bm25_search_refines_get_scores_example :
    WF cexIdxC10 ∧
    ((∀ h ∈ bm25_search cexIdxC10 ["a", "b"] 5 true,
        h.score = (get_scores cexIdxC10 ["a", "b"]).getD h.doc_idx 0) ∧
     (((sparseScores cexIdxC10 ["a", "b"]).map Prod.fst).Nodup ∧
      ∀ d, d ∈ (sparseScores cexIdxC10 ["a", "b"]).map Prod.fst ↔
         ∃ t ∈ ["a", "b"], (entryTf cexIdxC10 t d).isSome = true) ∧
     ((sparseScores cexIdxC10 ["a", "b"]).length ≤ 5 →
       ∀ d, (∃ h ∈ bm25_search cexIdxC10 ["a", "b"] 5 true, h.doc_idx = d) ↔
         ∃ t ∈ ["a", "b"], (entryTf cexIdxC10 t d).isSome = true)) :=
  ⟨by decide, bm25_search_refines_get_scores cexIdxC10 (by decide) ["a", "b"] 5 true⟩
